import Mathlib

/-!
Shallow embedding of the revision lifecycle and localization-consistency
engine of the kitsune wiki (kitsune/wiki/models.py).

Storage (the Django ORM tables behind `Document` and `Revision`) is modelled
as an explicit `World` of rows; foreign keys are identifiers looked up in the
world.  The external markup renderer (`wiki_to_html`) is a black-box pure
function `render : String → String` passed to every operation that needs it.
Django exceptions become an explicit `SaveError` sum; `Document.save` and
`Revision.save`, which are mutually recursive in the source through redirect
creation (`Document.objects.create` / `Revision.objects.create` invoke the
overridden `save` methods), are modelled with an explicit fuel argument: fuel
exhaustion yields `SaveError.outOfFuel`, which never happens for the call
depths the source can actually produce.
-/

namespace Kitsune

/-- settings.WIKI_DEFAULT_LANGUAGE (the canonical locale). -/
def WIKI_DEFAULT_LANGUAGE : String := "en-US"

/-- Modelled from the spec: the title marker deriving `is_template`
(kitsune/wiki/__init__.py, not part of the provided source). -/
def TEMPLATE_TITLE_START : String := "Template:"

/-- Modelled from the spec: significance enum, ordered typo < medium < major
(kitsune/wiki/config.py, not part of the provided source). -/
def TYPO_SIGNIFICANCE : Nat := 10

/-- Modelled from the spec: medium significance level. -/
def MEDIUM_SIGNIFICANCE : Nat := 20

/-- Modelled from the spec: major significance level. -/
def MAJOR_SIGNIFICANCE : Nat := 30

/-- Modelled from the spec: the valid document category ids
(kitsune/wiki/config.py CATEGORIES, not part of the provided source). -/
def CATEGORIES : List Int := [10, 20, 30, 40, 50, 60]

/-- Modelled from the spec: REDIRECT_CONTENT percent-template, instantiated
with a title (kitsune/wiki/config.py, not part of the provided source). -/
def REDIRECT_CONTENT (title : String) : String := "REDIRECT [[" ++ title ++ "]]"

/-- Modelled from the spec: REDIRECT_TITLE percent-template with `old` and
`number` tokens (kitsune/wiki/config.py, not part of the provided source). -/
def REDIRECT_TITLE (old : String) (number : Nat) : String :=
  old ++ " Redirect " ++ toString number

/-- Modelled from the spec: REDIRECT_SLUG percent-template with `old` and
`number` tokens (kitsune/wiki/config.py, not part of the provided source). -/
def REDIRECT_SLUG (old : String) (number : Nat) : String :=
  old ++ "-redirect-" ++ toString number

/-- A row of the wiki_document table together with the per-instance
`old_title` / `old_slug` attributes that `Document.__setattr__` maintains
(absent attribute = `none`; stored rows always carry `none` because the
attributes are never persisted). -/
structure Document where
  id : Option Nat
  title : String
  slug : String
  locale : String
  is_template : Bool
  is_localizable : Bool
  current_revision_id : Option Nat
  latest_localizable_revision_id : Option Nat
  parent_id : Option Nat
  html : String
  category : Int
  is_archived : Bool
  contributors : List Nat
  old_title : Option String
  old_slug : Option String
deriving Repr, DecidableEq, Inhabited

/-- A row of the wiki_revision table.  `reviewed_set` models whether the
`reviewed` timestamp is non-null; users are plain identifiers. -/
structure Revision where
  id : Nat
  document_id : Nat
  summary : String
  content : String
  significance : Option Nat
  reviewed_set : Bool
  is_approved : Bool
  based_on_id : Option Nat
  is_ready_for_localization : Bool
  creator : Nat
  reviewer : Option Nat
deriving Repr, DecidableEq, Inhabited

/-- The database state the modelled operations read and write. -/
structure World where
  documents : List Document
  revisions : List Revision
deriving Repr, DecidableEq, Inhabited

/-- Exceptions raised by the modelled operations.  `slugCollision` /
`titleCollision` are the source's SlugCollision / TitleCollision;
`validation` is Django's ValidationError; `programmingError` is the
ProgrammingError raised by `Revision.save` on an unclean `based_on`;
`missingRef` models a DoesNotExist raised while following a dangling
foreign key; `outOfFuel` is the fuel-exhaustion artifact of the model. -/
inductive SaveError where
  | slugCollision
  | titleCollision
  | validation
  | programmingError
  | missingRef
  | outOfFuel
deriving Repr, DecidableEq

/-- Fetch a document row by primary key. -/
def getDocument (w : World) (i : Nat) : Option Document :=
  w.documents.find? (fun d => d.id == some i)

/-- Fetch a revision row by primary key. -/
def getRevision (w : World) (i : Nat) : Option Revision :=
  w.revisions.find? (fun r => r.id == i)

/-- Python truthiness of a primary-key attribute (`None` and `0` are falsy). -/
def idTruthy : Option Nat → Bool
  | none => false
  | some i => i != 0

/-- The two attributes `Document.__setattr__` and `_attr_for_redirect`
range over. -/
inductive Attr where
  | title
  | slug
deriving Repr, DecidableEq

/-- `getattr(document, attr)` for the two tracked attributes. -/
def attrGet (d : Document) : Attr → String
  | .title => d.title
  | .slug => d.slug

/-- `getattr(document, 'old_' + attr, absent ↦ none)`. -/
def oldAttr (d : Document) : Attr → Option String
  | .title => d.old_title
  | .slug => d.old_slug

/-- Write one of the two tracked attributes. -/
def attrSet (d : Document) : Attr → String → Document
  | .title, v => {d with title := v}
  | .slug, v => {d with slug := v}

/-- Write (or delete, with `none`) the tracked pre-change value. -/
def oldAttrSet (d : Document) : Attr → Option String → Document
  | .title, v => {d with old_title := v}
  | .slug, v => {d with old_slug := v}

/-- `Document._collides`: does any document of my locale carry `value` in
attribute `a`?  (The query does not exclude my own stored row.) -/
def collides (w : World) (d : Document) (a : Attr) (value : String) : Bool :=
  w.documents.any (fun e => e.locale == d.locale && attrGet e a == value)

/-- The guard of `Document._raise_if_collides`: the collision pre-check only
runs when the document is new (`id is None`) or carries a tracked old value
for the attribute; `true` means the corresponding exception is raised. -/
def raiseIfCollides (w : World) (d : Document) (a : Attr) : Bool :=
  (d.id.isNone || (oldAttr d a).isSome) && collides w d a (attrGet d a)

/-- The stored translations of a document (`self.translations`). -/
def translations (w : World) (d : Document) : List Document :=
  w.documents.filter (fun e => e.parent_id == d.id && e.parent_id.isSome)

/-- `Document._clean_is_localizable`: force non-default locales to
`is_localizable = false`, reject a translation whose parent is not
localizable, reject turning off localizability while translations exist. -/
def cleanIsLocalizable (w : World) (d : Document) : Except SaveError Document :=
  let d1 := if d.locale == WIKI_DEFAULT_LANGUAGE then d else {d with is_localizable := false}
  match d1.parent_id with
  | some p =>
    match getDocument w p with
    | none => Except.error SaveError.missingRef
    | some parent =>
      if !parent.is_localizable then Except.error SaveError.validation
      else
        if idTruthy d1.id && !d1.is_localizable && !(translations w d1).isEmpty then
          Except.error SaveError.validation
        else Except.ok d1
  | none =>
    if idTruthy d1.id && !d1.is_localizable && !(translations w d1).isEmpty then
      Except.error SaveError.validation
    else Except.ok d1

/-- `Document._ensure_inherited_attr('is_archived')`: copy the flag from the
parent, or, for a saved root document, push it onto all stored translations. -/
def ensureInheritedArchived (w : World) (d : Document) :
    Except SaveError (World × Document) :=
  match d.parent_id with
  | some p =>
    match getDocument w p with
    | none => Except.error SaveError.missingRef
    | some parent => Except.ok (w, {d with is_archived := parent.is_archived})
  | none =>
    if idTruthy d.id then
      Except.ok ({w with documents := w.documents.map (fun e =>
        if e.parent_id == d.id && e.parent_id.isSome then
          {e with is_archived := d.is_archived} else e)}, d)
    else Except.ok (w, d)

/-- `Document._ensure_inherited_attr('category')`. -/
def ensureInheritedCategory (w : World) (d : Document) :
    Except SaveError (World × Document) :=
  match d.parent_id with
  | some p =>
    match getDocument w p with
    | none => Except.error SaveError.missingRef
    | some parent => Except.ok (w, {d with category := parent.category})
  | none =>
    if idTruthy d.id then
      Except.ok ({w with documents := w.documents.map (fun e =>
        if e.parent_id == d.id && e.parent_id.isSome then
          {e with category := d.category} else e)}, d)
    else Except.ok (w, d)

/-- `Document._clean_category`: a root document must carry a valid category;
then the category is inherited exactly like `is_archived`. -/
def cleanCategory (w : World) (d : Document) : Except SaveError (World × Document) :=
  if d.parent_id == none && !(CATEGORIES.contains d.category) then
    Except.error SaveError.validation
  else ensureInheritedCategory w d

/-- Next auto-increment primary key for the document table. -/
def nextDocId (w : World) : Nat :=
  (w.documents.foldl (fun m e => max m (e.id.getD 0)) 0) + 1

/-- Next auto-increment primary key for the revision table. -/
def nextRevId (w : World) : Nat :=
  (w.revisions.foldl (fun m e => max m e.id) 0) + 1

/-- Rows never persist the in-memory `old_title` / `old_slug` attributes. -/
def stripOld (d : Document) : Document :=
  {d with old_title := none, old_slug := none}

/-- The database write of `super(Document, self).save()`: insert with a fresh
primary key when the instance is new, otherwise update the row in place.
Returns the updated world and the instance (with its id assigned). -/
def persistDocument (w : World) (d : Document) : World × Document :=
  match d.id with
  | none =>
    let d' := {d with id := some (nextDocId w)}
    ({w with documents := w.documents ++ [stripOld d']}, d')
  | some i =>
    if w.documents.any (fun e => e.id == some i) then
      ({w with documents := w.documents.map (fun e =>
        if e.id == some i then stripOld d else e)}, d)
    else ({w with documents := w.documents ++ [stripOld d]}, d)

/-- The database write of `super(Revision, self).save()` (ids are chosen by
the callers; redirect creation picks `nextRevId`). -/
def persistRevision (w : World) (r : Revision) : World :=
  if w.revisions.any (fun x => x.id == r.id) then
    {w with revisions := w.revisions.map (fun x => if x.id == r.id then r else x)}
  else {w with revisions := w.revisions ++ [r]}

/-- The `while True` loop of `Document._attr_for_redirect.unique_attr`:
try suffixes `i, i+1, ...` until one does not collide; `fuel` bounds the
search (the source loop does not terminate when every candidate collides
forever, which `none` models). -/
def uniqueAttrAux (w : World) (d : Document) (a : Attr)
    (template : String → Nat → String) : Nat → Nat → Option String
  | 0, _ => none
  | fuel+1, i =>
    let v := template (attrGet d a) i
    if collides w d a v then uniqueAttrAux w d a template fuel (i + 1)
    else some v

/-- `unique_attr`, started at suffix 1 with enough fuel that an injective
template always finds a free value (at most `documents.length` values can be
taken). -/
def uniqueAttr (w : World) (d : Document) (a : Attr)
    (template : String → Nat → String) : Option String :=
  uniqueAttrAux w d a template (w.documents.length + 1) 1

/-- `Document._attr_for_redirect`: reuse the tracked old value when the
attribute is being changed in this same operation, otherwise synthesize a
unique variant from the template. -/
def attrForRedirect (w : World) (d : Document) (a : Attr)
    (template : String → Nat → String) : Option String :=
  match oldAttr d a with
  | some old => some old
  | none => uniqueAttr w d a template

/-- All revisions of a document (`self.revisions`). -/
def docRevisions (w : World) (d : Document) : List Revision :=
  w.revisions.filter (fun r => some r.document_id == d.id)

/-- Explicitly rejected: reviewed but not approved. -/
def isRejected (r : Revision) : Bool :=
  r.reviewed_set && !r.is_approved

/-- `queryset.order_by('-id')[0:1]`: the highest-id element, if any. -/
def latestBy : List Revision → Option Revision
  | [] => none
  | x :: xs =>
    match latestBy xs with
    | none => some x
    | some a => if a.id < x.id then some x else some a

/-- `Document.localizable_or_latest_revision`: the latest ready-to-localize
revision if set and the document is localizable, else the latest approved,
else the latest unrejected, else (with `include_rejected`) the latest of all.
(A dangling `latest_localizable_revision` foreign key, which would raise in
Django, is treated as unset; the claims assume foreign-key integrity.) -/
def localizable_or_latest_revision (w : World) (d : Document)
    (include_rejected : Bool) : Option Revision :=
  let rev := match d.latest_localizable_revision_id with
    | some l => getRevision w l
    | none => none
  if rev.isNone || !d.is_localizable then
    let revs := docRevisions w d
    match latestBy (revs.filter (fun r => r.is_approved)) with
    | some x => some x
    | none =>
      match latestBy (revs.filter (fun r => !isRejected r)) with
      | some x => some x
      | none => if include_rejected then latestBy revs else none
  else rev

/-- `Document.original`: the document I was translated from or, if none,
myself (`self.parent or self`). -/
def originalOf (w : World) (d : Document) : Except SaveError Document :=
  match d.parent_id with
  | some p =>
    match getDocument w p with
    | some parent => Except.ok parent
    | none => Except.error SaveError.missingRef
  | none => Except.ok d

/-- `Revision._based_on_is_clean`: `(the correct value of based_on, whether
the old value was correct)`.  A set `based_on` whose document is not the
canonical original is dirty and the localizable-or-latest revision of the
original is suggested instead. -/
def basedOnIsClean (w : World) (r : Revision) :
    Except SaveError (Option Revision × Bool) :=
  match getDocument w r.document_id with
  | none => Except.error SaveError.missingRef
  | some doc =>
    match originalOf w doc with
    | Except.error e => Except.error e
    | Except.ok original =>
      match r.based_on_id with
      | none => Except.ok (none, true)
      | some b =>
        match getRevision w b with
        | none => Except.error SaveError.missingRef
        | some br =>
          if some br.document_id == original.id then Except.ok (some br, true)
          else Except.ok (localizable_or_latest_revision w original false, false)

/-- `Document.is_outdated`: whether the parent document has an approved,
ready-for-localization revision of at least the given significance newer
than what the translation's current revision is based on.  (`based_on_id`
follows Python truthiness: a null id imposes no id filter; significance
null never satisfies `significance__gte`.  Dangling foreign keys, which
would raise in Django, yield `false`; the claims assume integrity.) -/
def is_outdated (w : World) (d : Document) (level : Nat) : Bool :=
  match d.parent_id with
  | none => false
  | some p =>
    match d.current_revision_id with
    | none => false
    | some c =>
      match getRevision w c with
      | none => false
      | some cr =>
        match getDocument w p with
        | none => false
        | some parent =>
          let based_on_id := cr.based_on_id.getD 0
          (docRevisions w parent).any (fun x =>
            x.is_approved && x.is_ready_for_localization &&
            (match x.significance with
             | some s => decide (level ≤ s)
             | none => false) &&
            (based_on_id == 0 || decide (based_on_id < x.id)))

/-- `Document.is_majorly_outdated`. -/
def is_majorly_outdated (w : World) (d : Document) : Bool :=
  is_outdated w d MAJOR_SIGNIFICANCE

/-- `Revision.can_be_readied_for_localization`: approved, significance above
typo (a null significance compares below everything in Python 2), and the
document lives in the default locale. -/
def can_be_readied_for_localization (w : World) (r : Revision) : Bool :=
  r.is_approved &&
  (match r.significance with
   | some s => decide (TYPO_SIGNIFICANCE < s)
   | none => false) &&
  (match getDocument w r.document_id with
   | some doc => doc.locale == WIKI_DEFAULT_LANGUAGE
   | none => false)

/-- Outcome of `Revision.clean`: either the (possibly policed) revision, or
the ValidationError for an unclean `based_on`, carrying the suggested
corrected value, the offending old id, and the mutated instance on which
the correction has already been written. -/
inductive CleanOutcome where
  | ok (r : Revision)
  | invalidBasedOn (corrected : Option Revision) (old_id : Nat) (r : Revision)
  | missingRef
deriving Repr, DecidableEq

/-- The trailing `is_ready`/`is_approved` policing of `Revision.clean`. -/
def policeReady (w : World) (r : Revision) : Revision :=
  if !can_be_readied_for_localization w r then
    {r with is_ready_for_localization := false}
  else r

/-- `Revision.clean`: when the document (or its original) cannot be resolved
the Document.DoesNotExist handler nulls `based_on`; otherwise an unclean
`based_on` is corrected on the instance and surfaced as a validation
failure; a clean one passes through to the readiness policing. -/
def revisionClean (w : World) (r : Revision) : CleanOutcome :=
  let docResolvable : Bool :=
    match getDocument w r.document_id with
    | none => false
    | some doc =>
      match doc.parent_id with
      | some p => (getDocument w p).isSome
      | none => true
  if !docResolvable then
    CleanOutcome.ok (policeReady w {r with based_on_id := none})
  else
    match basedOnIsClean w r with
    | Except.error _ => CleanOutcome.missingRef
    | Except.ok (based_on, is_clean) =>
      if is_clean then CleanOutcome.ok (policeReady w r)
      else
        CleanOutcome.invalidBasedOn based_on (r.based_on_id.getD 0)
          {r with based_on_id := based_on.map (fun x => x.id)}

/-- `Document.__setattr__` for `title` / `slug` on an instance: record the
pre-change value the first time the attribute really changes (comparison is
case-insensitive), drop the record when the attribute is set back to exactly
the recorded value, then perform the assignment. -/
def setDocAttr (d : Document) (a : Attr) (value : String) : Document :=
  let d1 :=
    if idTruthy d.id then
      match oldAttr d a with
      | none =>
        if (attrGet d a).toLower != value.toLower then
          oldAttrSet d a (some (attrGet d a))
        else d
      | some old =>
        if value == old then oldAttrSet d a none else d
    else d
  attrSet d1 a value

/-- `Revision.delete.latest_revision`: the largest-id revision of the
document meeting `constraint`, excluding the deleted one. -/
def latest_revision (w : World) (document : Document) (excluded : Revision)
    (constraint : Revision → Bool) : Option Revision :=
  latestBy ((docRevisions w document).filter
    (fun x => constraint x && x.id != excluded.id))

/-- `ModelBase.update`: write new field values straight to the row (and the
instance) without running `save`. -/
def documentUpdate (w : World) (d : Document) (f : Document → Document) :
    World × Document :=
  let d' := f d
  ({w with documents := w.documents.map (fun e =>
    if e.id == d.id && d.id.isSome then stripOld d' else e)}, d')

/-- The `current_revision` re-pointing step of `Revision.delete`: update the
document row to the largest-id remaining approved revision (or none) and
re-cache its rendered content (or empty html). -/
def deleteCurrentUpdate (render : String → String) (w1 : World)
    (document : Document) (self : Revision) : World × Document :=
  let new_current := latest_revision w1 document self (fun x => x.is_approved)
  let newHtml := match new_current with
    | some nc => render nc.content
    | none => ""
  documentUpdate w1 document (fun d =>
    {d with current_revision_id := new_current.map (fun x => x.id),
            html := newHtml})

/-- The `latest_localizable_revision` re-pointing step of `Revision.delete`. -/
def deleteLatestUpdate (w2 : World) (document2 : Document) (self : Revision) :
    World × Document :=
  let new_latest := latest_revision w2 document2 self
    (fun x => x.is_approved && x.is_ready_for_localization)
  documentUpdate w2 document2 (fun d =>
    {d with latest_localizable_revision_id := new_latest.map (fun x => x.id)})

/-- `Revision.delete`: null out every `based_on` referencing the deleted
revision, re-point `current_revision` (and the cached html) and
`latest_localizable_revision` when they referenced it, then delete the row. -/
def revisionDelete (render : String → String) (w : World) (self : Revision) :
    Except SaveError World :=
  let w1 := {w with revisions := w.revisions.map (fun x =>
    if x.based_on_id == some self.id then {x with based_on_id := none} else x)}
  match getDocument w1 self.document_id with
  | none => Except.error SaveError.missingRef
  | some document =>
    let (w2, document2) :=
      if document.current_revision_id == some self.id then
        deleteCurrentUpdate render w1 document self
      else (w1, document)
    let (w3, _) :=
      if document2.latest_localizable_revision_id == some self.id then
        deleteLatestUpdate w2 document2 self
      else (w2, document2)
    Except.ok {w3 with revisions := w3.revisions.filter (fun x => x.id != self.id)}

/-- The validation prelude of `Document.save`, in source order: recompute
`is_template` from the title, run the two collision pre-checks, then
`_clean_is_localizable`, `_ensure_inherited_attr('is_archived')` and
`_clean_category` ("too important to leave to a possibly omitted is_valid
call").  Any exception aborts the save before the row is written. -/
def validateAndClean (w : World) (d : Document) :
    Except SaveError (World × Document) :=
  let d0 := {d with is_template := d.title.startsWith TEMPLATE_TITLE_START}
  if raiseIfCollides w d0 Attr.slug then Except.error SaveError.slugCollision
  else if raiseIfCollides w d0 Attr.title then Except.error SaveError.titleCollision
  else
    match cleanIsLocalizable w d0 with
    | Except.error e => Except.error e
    | Except.ok d1 =>
      match ensureInheritedArchived w d1 with
      | Except.error e => Except.error e
      | Except.ok (w1, d2) =>
        match cleanCategory w1 d2 with
        | Except.error e => Except.error e
        | Except.ok (w2, d3) => Except.ok (w2, d3)

/-- The fresh, unsaved `Document` that `Document.objects.create(...)` builds
for a redirect: given title/slug/locale/category, `is_localizable=False`,
every other field at its model default. -/
def newDocument (title slug locale : String) (category : Int) : Document :=
  { id := none, title := title, slug := slug, locale := locale,
    is_template := false, is_localizable := false,
    current_revision_id := none, latest_localizable_revision_id := none,
    parent_id := none, html := "", category := category, is_archived := false,
    contributors := [], old_title := none, old_slug := none }

/-- The fresh `Revision` that `Revision.objects.create(...)` builds for a
redirect: pre-approved, authored and reviewed by `creator`, every other
field at its model default; the id is the table's next auto-increment. -/
def newRevision (w : World) (doc : Document) (content : String)
    (creator : Nat) : Revision :=
  { id := nextRevId w, document_id := doc.id.getD 0, summary := "",
    content := content, significance := none, reviewed_set := false,
    is_approved := true, based_on_id := none,
    is_ready_for_localization := false, creator := creator,
    reviewer := some creator }

/-- The revisions whose creators `Revision.save` merges into the document's
contributor set: all revisions of the document that are not explicitly
rejected, restricted to those newer than the previous current revision when
one exists. -/
def newRevsContribs (w : World) (doc : Document) : List Revision :=
  let revs := w.revisions.filter (fun x =>
    some x.document_id == doc.id && !(x.reviewed_set && !x.is_approved))
  match doc.current_revision_id with
  | some c => revs.filter (fun x => c < x.id)
  | none => revs

/-- Add the creators of `newRevsContribs` that are not already contributors. -/
def updateContributors (w : World) (doc : Document) : List Nat :=
  (newRevsContribs w doc).foldl
    (fun acc x => if acc.contains x.creator then acc else acc ++ [x.creator])
    doc.contributors

mutual

/-- `Document.save`: validate and clean, write the row, then create a
redirect when an (approved) current revision exists and the title or slug
carries a tracked old value.  (`parse_and_calculate_links` only rewrites the
DocumentLink table, which is outside the modelled state.) -/
def documentSave : Nat → (String → String) → World → Document →
    Except SaveError (World × Document)
  | 0, _, _, _ => Except.error SaveError.outOfFuel
  | fuel+1, render, w, d =>
    match validateAndClean w d with
    | Except.error e => Except.error e
    | Except.ok (w1, d1) =>
      let (w2, d2) := persistDocument w1 d1
      if d2.current_revision_id.isSome && (d2.old_slug.isSome || d2.old_title.isSome) then
        makeRedirect fuel render w2 d2
      else Except.ok (w2, d2)

/-- The redirect-creation tail of `Document.save`: build the redirect
document and its pre-approved revision, then delete the tracked old values
from the instance so a second save does not re-create the redirect. -/
def makeRedirect : Nat → (String → String) → World → Document →
    Except SaveError (World × Document)
  | 0, _, _, _ => Except.error SaveError.outOfFuel
  | fuel+1, render, w, d =>
    match d.current_revision_id with
    | none => Except.ok (w, d)
    | some c =>
      match getRevision w c with
      | none => Except.error SaveError.missingRef
      | some cr =>
        match attrForRedirect w d Attr.title REDIRECT_TITLE with
        | none => Except.error SaveError.outOfFuel
        | some t =>
          match attrForRedirect w d Attr.slug REDIRECT_SLUG with
          | none => Except.error SaveError.outOfFuel
          | some s =>
            match documentCreate fuel render w t s d.locale d.category with
            | Except.error e => Except.error e
            | Except.ok (w3, rd) =>
              match revisionCreate fuel render w3 rd (REDIRECT_CONTENT d.title)
                  cr.creator with
              | Except.error e => Except.error e
              | Except.ok (w4, _) =>
                Except.ok (w4, {d with old_slug := none, old_title := none})

/-- `Document.objects.create(...)` for the redirect stub: build the instance
and run the overridden `save`. -/
def documentCreate : Nat → (String → String) → World → String → String →
    String → Int → Except SaveError (World × Document)
  | 0, _, _, _, _, _, _ => Except.error SaveError.outOfFuel
  | fuel+1, render, w, title, slug, locale, category =>
    documentSave fuel render w (newDocument title slug locale category)

/-- `Revision.objects.create(...)` for the redirect stub: build the instance
and run the overridden `save`. -/
def revisionCreate : Nat → (String → String) → World → Document → String →
    Nat → Except SaveError (World × Revision)
  | 0, _, _, _, _, _ => Except.error SaveError.outOfFuel
  | fuel+1, render, w, doc, content, creator =>
    revisionSave fuel render w (newRevision w doc content creator)

/-- `Revision.save`: refuse an unclean `based_on`, write the row, then
update the document's denormalized fields: a newly approved revision newer
than the current one becomes current (recomputing contributors, html and
possibly the latest localizable revision); otherwise a newer
ready-for-localization revision bumps only that field. -/
def revisionSave : Nat → (String → String) → World → Revision →
    Except SaveError (World × Revision)
  | 0, _, _, _ => Except.error SaveError.outOfFuel
  | fuel+1, render, w, r =>
    match basedOnIsClean w r with
    | Except.error e => Except.error e
    | Except.ok (_, false) => Except.error SaveError.programmingError
    | Except.ok (_, true) =>
      let w1 := persistRevision w r
      match getDocument w1 r.document_id with
      | none => Except.error SaveError.missingRef
      | some doc =>
        if r.is_approved then
          match doc.current_revision_id with
          | none => approvedUpdate fuel render w1 r doc
          | some c =>
            match getRevision w1 c with
            | none => Except.error SaveError.missingRef
            | some cr =>
              if cr.id < r.id then approvedUpdate fuel render w1 r doc
              else readyUpdate fuel render w1 r doc
        else readyUpdate fuel render w1 r doc

/-- The approved branch of `Revision.save`: merge new contributors, set
`latest_localizable_revision` when the revision is ready, re-cache the html
and the current revision, then save the document. -/
def approvedUpdate : Nat → (String → String) → World → Revision → Document →
    Except SaveError (World × Revision)
  | 0, _, _, _, _ => Except.error SaveError.outOfFuel
  | fuel+1, render, w, r, doc =>
    let doc1 := {doc with contributors := updateContributors w doc}
    let doc2 := if r.is_ready_for_localization then
        {doc1 with latest_localizable_revision_id := some r.id}
      else doc1
    let doc3 := {doc2 with html := render r.content,
                           current_revision_id := some r.id}
    match documentSave fuel render w doc3 with
    | Except.error e => Except.error e
    | Except.ok (w', _) => Except.ok (w', r)

/-- The elif branch of `Revision.save`: a ready-for-localization revision
newer than the recorded latest localizable one bumps that field only. -/
def readyUpdate : Nat → (String → String) → World → Revision → Document →
    Except SaveError (World × Revision)
  | 0, _, _, _, _ => Except.error SaveError.outOfFuel
  | fuel+1, render, w, r, doc =>
    if r.is_ready_for_localization then
      match doc.latest_localizable_revision_id with
      | none => latestUpdate fuel render w r doc
      | some l =>
        match getRevision w l with
        | none => Except.error SaveError.missingRef
        | some lr =>
          if lr.id < r.id then latestUpdate fuel render w r doc
          else Except.ok (w, r)
    else Except.ok (w, r)

/-- The document write of the elif branch of `Revision.save`. -/
def latestUpdate : Nat → (String → String) → World → Revision → Document →
    Except SaveError (World × Revision)
  | 0, _, _, _, _ => Except.error SaveError.outOfFuel
  | fuel+1, render, w, r, doc =>
    match documentSave fuel render w
        {doc with latest_localizable_revision_id := some r.id} with
    | Except.error e => Except.error e
    | Except.ok (w', _) => Except.ok (w', r)

end

/-! ### Generic helper lemmas -/

theorem le_foldl_max {α : Type} (f : α → Nat) (l : List α) (acc : Nat) :
    acc ≤ l.foldl (fun m e => max m (f e)) acc := by
  induction l generalizing acc with
  | nil => exact Nat.le_refl _
  | cons x xs ih =>
    exact Nat.le_trans (Nat.le_max_left acc (f x)) (ih (max acc (f x)))

theorem mem_le_foldl_max {α : Type} (f : α → Nat) {l : List α} {e : α}
    (h : e ∈ l) (acc : Nat) :
    f e ≤ l.foldl (fun m e => max m (f e)) acc := by
  induction l generalizing acc with
  | nil => cases h
  | cons x xs ih =>
    rcases List.mem_cons.mp h with h | h
    · subst h
      exact Nat.le_trans (Nat.le_max_right acc (f e)) (le_foldl_max f xs _)
    · exact ih h _

theorem nextDocId_gt {w : World} {e : Document} (h : e ∈ w.documents) :
    e.id.getD 0 < nextDocId w :=
  Nat.lt_succ_of_le (mem_le_foldl_max (fun e => e.id.getD 0) h 0)

theorem nextRevId_gt {w : World} {e : Revision} (h : e ∈ w.revisions) :
    e.id < nextRevId w :=
  Nat.lt_succ_of_le (mem_le_foldl_max (fun e => e.id) h 0)

theorem nextDocId_fresh {w : World} {e : Document} (h : e ∈ w.documents) :
    e.id ≠ some (nextDocId w) := by
  intro hid
  have := nextDocId_gt h
  rw [hid] at this
  exact Nat.lt_irrefl _ this

theorem nextRevId_fresh {w : World} {e : Revision} (h : e ∈ w.revisions) :
    e.id ≠ nextRevId w := by
  intro hid
  have := nextRevId_gt h
  rw [hid] at this
  exact Nat.lt_irrefl _ this

theorem getDocument_id {w : World} {i : Nat} {d : Document}
    (h : getDocument w i = some d) : d.id = some i := by
  have := List.find?_some h
  simpa using this

theorem getDocument_mem {w : World} {i : Nat} {d : Document}
    (h : getDocument w i = some d) : d ∈ w.documents :=
  List.mem_of_find?_eq_some h

theorem getRevision_id {w : World} {i : Nat} {r : Revision}
    (h : getRevision w i = some r) : r.id = i := by
  have := List.find?_some h
  simpa using this

theorem getRevision_mem {w : World} {i : Nat} {r : Revision}
    (h : getRevision w i = some r) : r ∈ w.revisions :=
  List.mem_of_find?_eq_some h

/-- `latestBy` returns an element of the list. -/
theorem latestBy_mem : ∀ {l : List Revision} {x : Revision},
    latestBy l = some x → x ∈ l := by
  intro l
  induction l with
  | nil => intro x h; simp [latestBy] at h
  | cons a as ih =>
    intro x h
    simp only [latestBy] at h
    cases hl : latestBy as with
    | none => rw [hl] at h; simp at h; simp [h]
    | some b =>
      rw [hl] at h
      by_cases hc : b.id < a.id
      · simp [hc] at h; simp [h]
      · simp [hc] at h
        exact List.mem_cons_of_mem a (ih (h ▸ hl))

/-- `latestBy` returns an id-maximal element. -/
theorem latestBy_le : ∀ {l : List Revision} {x : Revision},
    latestBy l = some x → ∀ y ∈ l, y.id ≤ x.id := by
  intro l
  induction l with
  | nil => intro x h; simp [latestBy] at h
  | cons a as ih =>
    intro x h y hy
    simp only [latestBy] at h
    cases hl : latestBy as with
    | none =>
      rw [hl] at h
      simp at h
      have hnil : as = [] := by
        cases as with
        | nil => rfl
        | cons c cs =>
          exfalso
          simp only [latestBy] at hl
          cases hcs : latestBy cs with
          | none => rw [hcs] at hl; simp at hl
          | some d =>
            rw [hcs] at hl
            by_cases hdc : d.id < c.id <;> simp [hdc] at hl
      subst hnil
      rcases List.mem_cons.mp hy with h1 | h1
      · subst h1; subst h; exact Nat.le_refl _
      · cases h1
    | some b =>
      rw [hl] at h
      by_cases hc : b.id < a.id
      · simp [hc] at h
        subst h
        rcases List.mem_cons.mp hy with h1 | h1
        · subst h1; exact Nat.le_refl _
        · exact Nat.le_trans (ih hl y h1) (Nat.le_of_lt hc)
      · simp [hc] at h
        rcases List.mem_cons.mp hy with h1 | h1
        · subst h1
          subst h
          exact Nat.le_of_not_lt hc
        · exact ih (h ▸ hl) y h1

/-- `latestBy` is `none` exactly on the empty list. -/
theorem latestBy_eq_none : ∀ {l : List Revision}, latestBy l = none ↔ l = [] := by
  intro l
  cases l with
  | nil => simp [latestBy]
  | cons a as =>
    simp only [latestBy]
    constructor
    · intro h
      cases hl : latestBy as with
      | none => rw [hl] at h; simp at h
      | some b => rw [hl] at h; by_cases hc : b.id < a.id <;> simp [hc] at h
    · intro h; cases h

/-! ### C9: rename tracking in `Document.__setattr__` -/

/-- C9: on a persisted document, assigning `title` or `slug` a value that
differs from the current one only in letter case records no pending old
value, and a change-then-exact-revert sequence is the identity on the
instance (the pending-change marker is cancelled), so a subsequent save
behaves like no change at all. -/
theorem setattr_rename_tracking (d : Document) (a : Attr) (v : String)
    (hid : idTruthy d.id = true) (hold : oldAttr d a = none) :
    ((attrGet d a).toLower = v.toLower →
      oldAttr (setDocAttr d a v) a = none) ∧
    setDocAttr (setDocAttr d a v) a (attrGet d a) = d ∧
    (∀ (fuel : Nat) (render : String → String) (w : World),
      documentSave fuel render w (setDocAttr (setDocAttr d a v) a (attrGet d a)) =
      documentSave fuel render w d) := by
  have main : ((attrGet d a).toLower = v.toLower →
      oldAttr (setDocAttr d a v) a = none) ∧
      setDocAttr (setDocAttr d a v) a (attrGet d a) = d := by
    cases a with
    | title =>
      simp only [oldAttr] at hold
      by_cases hc : d.title.toLower = v.toLower
      · constructor
        · intro _
          simp [setDocAttr, attrGet, oldAttr, attrSet, oldAttrSet, hid, hold, hc]
        · cases d with
          | mk id title slug locale is_template is_localizable cur latest par
              html cat arch contribs ot os =>
            simp only [oldAttr] at hold
            simp only [attrGet] at hc
            subst hold
            simp [setDocAttr, attrGet, oldAttr, attrSet, oldAttrSet, hid, hc]
      · constructor
        · intro h
          exact absurd h hc
        · cases d with
          | mk id title slug locale is_template is_localizable cur latest par
              html cat arch contribs ot os =>
            simp only [oldAttr] at hold
            simp only [attrGet] at hc
            subst hold
            simp [setDocAttr, attrGet, oldAttr, attrSet, oldAttrSet, hid, hc]
    | slug =>
      simp only [oldAttr] at hold
      by_cases hc : d.slug.toLower = v.toLower
      · constructor
        · intro _
          simp [setDocAttr, attrGet, oldAttr, attrSet, oldAttrSet, hid, hold, hc]
        · cases d with
          | mk id title slug locale is_template is_localizable cur latest par
              html cat arch contribs ot os =>
            simp only [oldAttr] at hold
            simp only [attrGet] at hc
            subst hold
            simp [setDocAttr, attrGet, oldAttr, attrSet, oldAttrSet, hid, hc]
      · constructor
        · intro h
          exact absurd h hc
        · cases d with
          | mk id title slug locale is_template is_localizable cur latest par
              html cat arch contribs ot os =>
            simp only [oldAttr] at hold
            simp only [attrGet] at hc
            subst hold
            simp [setDocAttr, attrGet, oldAttr, attrSet, oldAttrSet, hid, hc]
  refine ⟨main.1, main.2, ?_⟩
  intro fuel render w
  rw [main.2]

/-! ### C7: the redirect attribute generator -/

theorem uniqueAttrAux_spec (w : World) (d : Document) (a : Attr)
    (template : String → Nat → String) :
    ∀ (fuel i : Nat) (v : String),
    uniqueAttrAux w d a template fuel i = some v →
    ∃ k, i ≤ k ∧ v = template (attrGet d a) k ∧
      collides w d a v = false ∧
      ∀ j, i ≤ j → j < k → collides w d a (template (attrGet d a) j) = true := by
  intro fuel
  induction fuel with
  | zero => intro i v h; simp [uniqueAttrAux] at h
  | succ f ih =>
    intro i v h
    simp only [uniqueAttrAux] at h
    by_cases hc : collides w d a (template (attrGet d a) i) = true
    · simp only [hc, if_true] at h
      obtain ⟨k, hk1, hk2, hk3, hk4⟩ := ih (i + 1) v h
      refine ⟨k, Nat.le_trans (Nat.le_succ i) hk1, hk2, hk3, ?_⟩
      intro j hj1 hj2
      rcases Nat.eq_or_lt_of_le hj1 with hj | hj
      · subst hj; exact hc
      · exact hk4 j hj hj2
    · simp only [Bool.not_eq_true] at hc
      simp only [hc, Bool.false_eq_true, if_false, Option.some.injEq] at h
      subst h
      exact ⟨i, Nat.le_refl i, rfl, hc, fun j hj1 hj2 => absurd (Nat.lt_of_le_of_lt hj1 hj2) (Nat.lt_irrefl i)⟩

def c7doc : Document :=
  { id := some 1, title := "Foo", slug := "foo", locale := "en-US",
    is_template := false, is_localizable := true,
    current_revision_id := none, latest_localizable_revision_id := none,
    parent_id := none, html := "", category := 10, is_archived := false,
    contributors := [], old_title := none, old_slug := none }

def c7world : World := { documents := [], revisions := [] }

/-- C7 counterexample: with the template that returns the old value
unchanged and a world in which no document of the locale carries the current
slug, the generator synthesizes (no tracked old value exists) and returns
the document's current unmodified slug, so "never returns D's current
unmodified attr value when synthesizing" fails for arbitrary templates. -/
theorem attr_for_redirect_counterexample :
    oldAttr c7doc Attr.slug = none ∧
    attrForRedirect c7world c7doc Attr.slug (fun old _ => old) =
      some (attrGet c7doc Attr.slug) := by
  constructor
  · rfl
  · rfl

/-- C7 (amended): the generator returns the tracked original value when one
exists; otherwise it returns the template formatted with the current attr
value and the smallest integer suffix, starting at 1, whose result collides
with no document in D's locale; and, provided some document of D's locale
(in particular D's own stored row) carries the current attr value, it never
returns D's current unmodified attr value when synthesizing. -/
theorem attr_for_redirect_spec (w : World) (d : Document) (a : Attr)
    (template : String → Nat → String) :
    (∀ v0, oldAttr d a = some v0 → attrForRedirect w d a template = some v0) ∧
    (oldAttr d a = none → ∀ v, attrForRedirect w d a template = some v →
      ∃ k, 1 ≤ k ∧ v = template (attrGet d a) k ∧
        collides w d a v = false ∧
        ∀ j, 1 ≤ j → j < k →
          collides w d a (template (attrGet d a) j) = true) ∧
    (oldAttr d a = none → collides w d a (attrGet d a) = true →
      ∀ v, attrForRedirect w d a template = some v → v ≠ attrGet d a) := by
  refine ⟨?_, ?_, ?_⟩
  · intro v0 h
    simp [attrForRedirect, h]
  · intro h v hv
    simp only [attrForRedirect, h, uniqueAttr] at hv
    exact uniqueAttrAux_spec w d a template _ 1 v hv
  · intro h hcoll v hv heq
    simp only [attrForRedirect, h, uniqueAttr] at hv
    obtain ⟨k, _, _, hfree, _⟩ := uniqueAttrAux_spec w d a template _ 1 v hv
    rw [heq, hcoll] at hfree
    cases hfree

def c7wit_doc : Document :=
  { id := some 1, title := "Foo", slug := "foo", locale := "en-US",
    is_template := false, is_localizable := true,
    current_revision_id := none, latest_localizable_revision_id := none,
    parent_id := none, html := "", category := 10, is_archived := false,
    contributors := [], old_title := none, old_slug := none }

def c7wit_world : World := { documents := [c7wit_doc], revisions := [] }

theorem attr_for_redirect_spec_witness :
    ("foo-redirect-1" : String) ≠ attrGet c7wit_doc Attr.slug ∧
    attrForRedirect c7wit_world c7wit_doc Attr.slug REDIRECT_SLUG =
      some "foo-redirect-1" :=
  ⟨(attr_for_redirect_spec c7wit_world c7wit_doc Attr.slug REDIRECT_SLUG).2.2
      (by rfl) (by rfl) "foo-redirect-1" (by rfl),
   by rfl⟩

def c9doc : Document :=
  { id := some 1, title := "Foo", slug := "foo", locale := "en-US",
    is_template := false, is_localizable := true,
    current_revision_id := none, latest_localizable_revision_id := none,
    parent_id := none, html := "", category := 10, is_archived := false,
    contributors := [], old_title := none, old_slug := none }

theorem setattr_rename_tracking_witness :
    setDocAttr (setDocAttr c9doc Attr.slug "bar") Attr.slug
      (attrGet c9doc Attr.slug) = c9doc ∧
    idTruthy c9doc.id = true ∧ oldAttr c9doc Attr.slug = none :=
  ⟨(setattr_rename_tracking c9doc Attr.slug "bar" (by rfl) (by rfl)).2.1,
   by rfl, by rfl⟩

/-! ### C4: staleness of translations -/

/-- C4: `is_outdated` is false when the translation has no parent or no
current revision; otherwise it is true exactly when the parent document has
an approved, ready-for-localization revision of significance at least
`level` whose id exceeds the current revision's `based_on` id when that is
set (any such revision qualifies when `based_on` is unset); and
`is_majorly_outdated` is `is_outdated` at `MAJOR_SIGNIFICANCE`. -/
theorem is_outdated_spec (w : World) (d : Document) (level : Nat) :
    ((d.parent_id = none ∨ d.current_revision_id = none) →
      is_outdated w d level = false) ∧
    (∀ p c cr parent, d.parent_id = some p → d.current_revision_id = some c →
      getRevision w c = some cr → getDocument w p = some parent →
      cr.based_on_id ≠ some 0 →
      (is_outdated w d level = true ↔
        ∃ x ∈ w.revisions, x.document_id = p ∧ x.is_approved = true ∧
          x.is_ready_for_localization = true ∧
          (∃ s, x.significance = some s ∧ level ≤ s) ∧
          (∀ b, cr.based_on_id = some b → b < x.id))) ∧
    is_majorly_outdated w d = is_outdated w d MAJOR_SIGNIFICANCE := by
  refine ⟨?_, ?_, rfl⟩
  · rintro (h | h) <;> simp [is_outdated, h] <;>
      cases hp : d.parent_id <;> simp [hp]
  · intro p c cr parent hp hc hcr hparent hb0
    have hpid : parent.id = some p := getDocument_id hparent
    simp only [is_outdated, hp, hc, hcr, hparent]
    rw [List.any_eq_true]
    constructor
    · rintro ⟨x, hxmem, hxp⟩
      simp only [docRevisions] at hxmem
      rw [List.mem_filter] at hxmem
      obtain ⟨hxw, hxdoc⟩ := hxmem
      have hxdoc' : x.document_id = p := by
        rw [hpid] at hxdoc
        simpa using hxdoc
      simp only [Bool.and_eq_true] at hxp
      obtain ⟨⟨⟨happ, hready⟩, hsig⟩, hlast⟩ := hxp
      refine ⟨x, hxw, hxdoc', happ, hready, ?_, ?_⟩
      · cases hs : x.significance with
        | none => rw [hs] at hsig; cases hsig
        | some s =>
          rw [hs] at hsig
          exact ⟨s, rfl, of_decide_eq_true hsig⟩
      · intro b hb
        cases hbb : cr.based_on_id with
        | none => rw [hbb] at hb; cases hb
        | some b' =>
          rw [hbb] at hb
          cases hb
          rw [hbb] at hb0 hlast
          simp only [Option.getD_some] at hlast
          have hbne : b ≠ 0 := fun h => hb0 (by rw [h])
          rw [Bool.or_eq_true] at hlast
          rcases hlast with h | h
          · exact absurd (by simpa using h) hbne
          · exact of_decide_eq_true h
    · rintro ⟨x, hxw, hxdoc, happ, hready, ⟨s, hs, hls⟩, hlast⟩
      refine ⟨x, ?_, ?_⟩
      · simp only [docRevisions]
        rw [List.mem_filter]
        exact ⟨hxw, by rw [hpid]; simp [hxdoc]⟩
      · simp only [Bool.and_eq_true]
        refine ⟨⟨⟨happ, hready⟩, ?_⟩, ?_⟩
        · rw [hs]; exact decide_eq_true hls
        · cases hbb : cr.based_on_id with
          | none => simp
          | some b =>
            simp only [Option.getD_some]
            rw [Bool.or_eq_true]
            right
            exact decide_eq_true (hlast b (by rw [hbb]))

def c4a : Document :=
  { id := some 1, title := "Foo", slug := "foo", locale := "en-US",
    is_template := false, is_localizable := true,
    current_revision_id := some 1, latest_localizable_revision_id := some 1,
    parent_id := none, html := "", category := 10, is_archived := false,
    contributors := [], old_title := none, old_slug := none }

def c4b : Document :=
  { id := some 2, title := "Foo de", slug := "foo", locale := "de",
    is_template := false, is_localizable := false,
    current_revision_id := some 2, latest_localizable_revision_id := none,
    parent_id := some 1, html := "", category := 10, is_archived := false,
    contributors := [], old_title := none, old_slug := none }

def c4r1 : Revision :=
  { id := 1, document_id := 1, summary := "", content := "a",
    significance := some 30, reviewed_set := true, is_approved := true,
    based_on_id := none, is_ready_for_localization := true,
    creator := 7, reviewer := some 7 }

def c4r2 : Revision :=
  { id := 2, document_id := 2, summary := "", content := "b",
    significance := some 30, reviewed_set := true, is_approved := true,
    based_on_id := some 1, is_ready_for_localization := false,
    creator := 7, reviewer := some 7 }

def c4r3 : Revision :=
  { id := 3, document_id := 1, summary := "", content := "c",
    significance := some 30, reviewed_set := true, is_approved := true,
    based_on_id := none, is_ready_for_localization := true,
    creator := 7, reviewer := some 7 }

def c4w : World := { documents := [c4a, c4b], revisions := [c4r1, c4r2, c4r3] }

theorem is_outdated_spec_witness :
    is_outdated c4w c4b MEDIUM_SIGNIFICANCE = true :=
  ((is_outdated_spec c4w c4b MEDIUM_SIGNIFICANCE).2.1 1 2 c4r2 c4a
    (by rfl) (by rfl) (by rfl) (by rfl) (by decide)).mpr
    ⟨c4r3, by simp [c4w, c4r3], by rfl, by rfl, by rfl,
     ⟨30, by rfl, by decide⟩,
     by intro b hb; cases hb; decide⟩

/-! ### C5: `localizable_or_latest_revision` resolution order -/

/-- C5: the resolution order of `localizable_or_latest_revision`: the
recorded latest localizable revision when set on a localizable document;
otherwise the highest-id approved revision; otherwise the highest-id
not-explicitly-rejected revision; otherwise, with `include_rejected`, the
highest-id revision of any kind; otherwise none. -/
theorem localizable_or_latest_revision_spec (w : World) (d : Document)
    (include_rejected : Bool) :
    (∀ l lr, d.latest_localizable_revision_id = some l →
      getRevision w l = some lr → d.is_localizable = true →
      localizable_or_latest_revision w d include_rejected = some lr) ∧
    ((d.latest_localizable_revision_id = none ∨ d.is_localizable = false) →
      ((∃ y ∈ docRevisions w d, y.is_approved = true) →
        ∃ x, localizable_or_latest_revision w d include_rejected = some x ∧
          x ∈ docRevisions w d ∧ x.is_approved = true ∧
          ∀ y ∈ docRevisions w d, y.is_approved = true → y.id ≤ x.id) ∧
      ((∀ y ∈ docRevisions w d, y.is_approved = false) →
        (∃ y ∈ docRevisions w d, isRejected y = false) →
        ∃ x, localizable_or_latest_revision w d include_rejected = some x ∧
          x ∈ docRevisions w d ∧ isRejected x = false ∧
          ∀ y ∈ docRevisions w d, isRejected y = false → y.id ≤ x.id) ∧
      ((∀ y ∈ docRevisions w d, y.is_approved = false) →
        (∀ y ∈ docRevisions w d, isRejected y = true) →
        include_rejected = true → docRevisions w d ≠ [] →
        ∃ x, localizable_or_latest_revision w d include_rejected = some x ∧
          x ∈ docRevisions w d ∧
          ∀ y ∈ docRevisions w d, y.id ≤ x.id) ∧
      ((∀ y ∈ docRevisions w d, y.is_approved = false) →
        (∀ y ∈ docRevisions w d, isRejected y = true) →
        (include_rejected = false ∨ docRevisions w d = []) →
        localizable_or_latest_revision w d include_rejected = none)) := by
  constructor
  · intro l lr hl hlr hloc
    simp [localizable_or_latest_revision, hl, hlr, hloc]
  · intro hfb
    have hcond : (match d.latest_localizable_revision_id with
        | some l => getRevision w l
        | none => none).isNone = true ∨ d.is_localizable = false := by
      rcases hfb with h | h
      · left; rw [h]; rfl
      · right; exact h
    refine ⟨?_, ?_, ?_, ?_⟩
    · rintro ⟨y, hy, hyapp⟩
      have hne : (docRevisions w d).filter (fun r => r.is_approved) ≠ [] := by
        intro hnil
        rw [List.filter_eq_nil] at hnil
        exact hnil y hy (by simp [hyapp])
      cases hlat : latestBy ((docRevisions w d).filter (fun r => r.is_approved)) with
      | none => exact absurd (latestBy_eq_none.mp hlat) hne
      | some x =>
        have hxmem := latestBy_mem hlat
        rw [List.mem_filter] at hxmem
        refine ⟨x, ?_, hxmem.1, hxmem.2, ?_⟩
        · simp only [localizable_or_latest_revision]
          rcases hcond with h | h
          · rw [Option.isNone_iff_eq_none] at h
            rw [h]
            simp only [Option.isNone_none, Bool.true_or, if_true, hlat]
          · rw [h]
            simp only [Bool.not_false, Bool.or_true, if_true, hlat]
        · intro z hz hzapp
          exact latestBy_le hlat z (List.mem_filter.mpr ⟨hz, by simp [hzapp]⟩)
    · intro hnoapp
      rintro ⟨y, hy, hyrej⟩
      have hfnil : (docRevisions w d).filter (fun r => r.is_approved) = [] := by
        rw [List.filter_eq_nil]
        intro z hz
        simp [hnoapp z hz]
      have hne : (docRevisions w d).filter (fun r => !isRejected r) ≠ [] := by
        intro hnil
        rw [List.filter_eq_nil] at hnil
        exact hnil y hy (by simp [hyrej])
      cases hlat : latestBy ((docRevisions w d).filter (fun r => !isRejected r)) with
      | none => exact absurd (latestBy_eq_none.mp hlat) hne
      | some x =>
        have hxmem := latestBy_mem hlat
        rw [List.mem_filter] at hxmem
        refine ⟨x, ?_, hxmem.1, by simpa using hxmem.2, ?_⟩
        · simp only [localizable_or_latest_revision]
          rcases hcond with h | h
          · rw [Option.isNone_iff_eq_none] at h
            rw [h]
            simp only [Option.isNone_none, Bool.true_or, if_true, hfnil,
              latestBy, hlat]
          · rw [h]
            simp only [Bool.not_false, Bool.or_true, if_true, hfnil,
              latestBy, hlat]
        · intro z hz hzrej
          exact latestBy_le hlat z (List.mem_filter.mpr ⟨hz, by simp [hzrej]⟩)
    · intro hnoapp hallrej hinc hne
      have hfnil : (docRevisions w d).filter (fun r => r.is_approved) = [] := by
        rw [List.filter_eq_nil]
        intro z hz
        simp [hnoapp z hz]
      have hfnil2 : (docRevisions w d).filter (fun r => !isRejected r) = [] := by
        rw [List.filter_eq_nil]
        intro z hz
        simp [hallrej z hz]
      cases hlat : latestBy (docRevisions w d) with
      | none => exact absurd (latestBy_eq_none.mp hlat) hne
      | some x =>
        refine ⟨x, ?_, latestBy_mem hlat, fun z hz => latestBy_le hlat z hz⟩
        simp only [localizable_or_latest_revision]
        rcases hcond with h | h
        · rw [Option.isNone_iff_eq_none] at h
          rw [h]
          simp only [Option.isNone_none, Bool.true_or, if_true, hfnil, hfnil2,
            latestBy, hinc, hlat]
        · rw [h]
          simp only [Bool.not_false, Bool.or_true, if_true, hfnil, hfnil2,
            latestBy, hinc, hlat]
    · intro hnoapp hallrej hlastcase
      have hfnil : (docRevisions w d).filter (fun r => r.is_approved) = [] := by
        rw [List.filter_eq_nil]
        intro z hz
        simp [hnoapp z hz]
      have hfnil2 : (docRevisions w d).filter (fun r => !isRejected r) = [] := by
        rw [List.filter_eq_nil]
        intro z hz
        simp [hallrej z hz]
      have hlast : (if include_rejected then latestBy (docRevisions w d)
          else none) = none := by
        rcases hlastcase with h | h
        · rw [h]; simp
        · rw [h]
          simp [latestBy]
      simp only [localizable_or_latest_revision]
      rcases hcond with h | h
      · rw [Option.isNone_iff_eq_none] at h
        rw [h]
        simp only [Option.isNone_none, Bool.true_or, if_true, hfnil, hfnil2,
          latestBy]
        exact hlast
      · rw [h]
        simp only [Bool.not_false, Bool.or_true, if_true, hfnil, hfnil2,
          latestBy]
        exact hlast

theorem localizable_or_latest_revision_spec_witness :
    localizable_or_latest_revision c4w c4a false = some c4r1 :=
  (localizable_or_latest_revision_spec c4w c4a false).1 1 c4r1 rfl rfl rfl

/-! ### C8: `based_on` pre-save validation -/

theorem docResolvable_of_originalOf {w : World} {r : Revision}
    {doc original : Document}
    (hdoc : getDocument w r.document_id = some doc)
    (horig : originalOf w doc = Except.ok original) :
    (match getDocument w r.document_id with
     | none => false
     | some doc =>
       match doc.parent_id with
       | some p => (getDocument w p).isSome
       | none => true) = true := by
  rw [hdoc]
  show (match doc.parent_id with
       | some p => (getDocument w p).isSome
       | none => true) = true
  cases hpar : doc.parent_id with
  | none => rfl
  | some p =>
    simp only [originalOf, hpar] at horig
    cases hp : getDocument w p with
    | none => simp [hp] at horig
    | some q => simp [hp]

/-- C8: a set `based_on` referencing a revision of a document other than the
canonical original makes `Revision.clean` fail with a validation error that
carries the corrected value (the localizable-or-latest resolution of the
original, also written onto the instance), and makes `Revision.save` refuse
to persist; a null `based_on`, or one referencing the canonical original,
passes validation unchanged. -/
theorem based_on_validation_spec (w : World) (r : Revision) :
    (∀ b br doc original, r.based_on_id = some b → getRevision w b = some br →
      getDocument w r.document_id = some doc →
      originalOf w doc = Except.ok original →
      some br.document_id ≠ original.id →
      revisionClean w r = CleanOutcome.invalidBasedOn
        (localizable_or_latest_revision w original false) b
        {r with based_on_id := (localizable_or_latest_revision w original false).map (fun x => x.id)} ∧
      (∀ (fuel : Nat) (render : String → String),
        revisionSave (fuel + 1) render w r =
          Except.error SaveError.programmingError)) ∧
    (∀ doc original, getDocument w r.document_id = some doc →
      originalOf w doc = Except.ok original →
      (r.based_on_id = none ∨
        (∃ b br, r.based_on_id = some b ∧ getRevision w b = some br ∧
          some br.document_id = original.id)) →
      ∃ r', revisionClean w r = CleanOutcome.ok r' ∧
        r'.based_on_id = r.based_on_id) := by
  constructor
  · intro b br doc original hb hbr hdoc horig hne
    have hresolv := docResolvable_of_originalOf (r := r) hdoc horig
    have hclean : basedOnIsClean w r =
        Except.ok (localizable_or_latest_revision w original false, false) := by
      simp only [basedOnIsClean, hdoc, horig, hb, hbr]
      have : (some br.document_id == original.id) = false := by
        simpa using hne
      rw [this]
      simp
    constructor
    · simp only [revisionClean, hresolv, Bool.not_true, Bool.false_eq_true,
        if_false, hclean]
      simp [hb]
    · intro fuel render
      simp only [revisionSave, hclean]
  · intro doc original hdoc horig hcases
    have hclean : ∃ v, basedOnIsClean w r = Except.ok (v, true) := by
      rcases hcases with h | ⟨b, br, hb, hbr, hmatch⟩
      · exact ⟨none, by simp [basedOnIsClean, hdoc, horig, h]⟩
      · refine ⟨some br, ?_⟩
        simp only [basedOnIsClean, hdoc, horig, hb, hbr]
        have : (some br.document_id == original.id) = true := by
          simpa using hmatch
        rw [this]
        simp
    obtain ⟨v, hclean⟩ := hclean
    have hresolv := docResolvable_of_originalOf (r := r) hdoc horig
    refine ⟨policeReady w r, ?_, ?_⟩
    · simp only [revisionClean, hresolv, Bool.not_true, Bool.false_eq_true,
        if_false, hclean]
      simp
    · simp only [policeReady]
      split <;> rfl

def c8bad : Revision :=
  { id := 4, document_id := 2, summary := "", content := "d",
    significance := some 20, reviewed_set := false, is_approved := false,
    based_on_id := some 2, is_ready_for_localization := false,
    creator := 7, reviewer := none }

theorem based_on_validation_spec_witness :
    revisionClean c4w c8bad = CleanOutcome.invalidBasedOn
      (localizable_or_latest_revision c4w c4a false) 2
      {c8bad with based_on_id := (localizable_or_latest_revision c4w c4a false).map (fun x => x.id)} ∧
    revisionSave (9 + 1) (fun s => s) c4w c8bad =
      Except.error SaveError.programmingError :=
  ⟨((based_on_validation_spec c4w c8bad).1 2 c4r2 c4b c4a rfl rfl rfl rfl
      (by decide)).1,
   ((based_on_validation_spec c4w c8bad).1 2 c4r2 c4b c4a rfl rfl rfl rfl
      (by decide)).2 9 (fun s => s)⟩

/-! ### Inversion infrastructure for the save operations -/

/-- The fields of a document row that the validation/inheritance steps of
`Document.save` never touch (everything except `is_template`,
`is_localizable`, `is_archived` and `category`). -/
def sameRowCore (a b : Document) : Prop :=
  a.id = b.id ∧ a.title = b.title ∧ a.slug = b.slug ∧ a.locale = b.locale ∧
  a.current_revision_id = b.current_revision_id ∧
  a.latest_localizable_revision_id = b.latest_localizable_revision_id ∧
  a.html = b.html ∧ a.parent_id = b.parent_id ∧
  a.old_title = b.old_title ∧ a.old_slug = b.old_slug

theorem sameRowCore_refl (a : Document) : sameRowCore a a :=
  ⟨rfl, rfl, rfl, rfl, rfl, rfl, rfl, rfl, rfl, rfl⟩

theorem sameRowCore_trans {a b c : Document}
    (h1 : sameRowCore a b) (h2 : sameRowCore b c) : sameRowCore a c := by
  obtain ⟨x1, x2, x3, x4, x5, x6, x7, x8, x9, x10⟩ := h1
  obtain ⟨y1, y2, y3, y4, y5, y6, y7, y8, y9, y10⟩ := h2
  exact ⟨x1.trans y1, x2.trans y2, x3.trans y3, x4.trans y4, x5.trans y5,
    x6.trans y6, x7.trans y7, x8.trans y8, x9.trans y9, x10.trans y10⟩

theorem cleanIsLocalizable_core {w : World} {d d1 : Document}
    (h : cleanIsLocalizable w d = Except.ok d1) : sameRowCore d1 d := by
  simp only [cleanIsLocalizable] at h
  repeat' split at h
  all_goals try cases h
  all_goals first
    | exact sameRowCore_refl d
    | exact ⟨rfl, rfl, rfl, rfl, rfl, rfl, rfl, rfl, rfl, rfl⟩

theorem ensureInheritedArchived_ok {w : World} {d : Document} {w1 : World}
    {d1 : Document} (h : ensureInheritedArchived w d = Except.ok (w1, d1)) :
    sameRowCore d1 d ∧ w1.revisions = w.revisions ∧
    ∃ f : Document → Document, w1.documents = w.documents.map f ∧
      ∀ e, sameRowCore (f e) e := by
  simp only [ensureInheritedArchived] at h
  repeat' split at h
  all_goals try cases h
  all_goals refine ⟨⟨rfl, rfl, rfl, rfl, rfl, rfl, rfl, rfl, rfl, rfl⟩, rfl, ?_⟩
  all_goals first
    | exact ⟨id, (List.map_id _).symm, fun e => sameRowCore_refl e⟩
    | (refine ⟨_, rfl, fun e => ?_⟩
       dsimp only
       split
       · exact ⟨rfl, rfl, rfl, rfl, rfl, rfl, rfl, rfl, rfl, rfl⟩
       · exact sameRowCore_refl e)

theorem ensureInheritedCategory_ok {w : World} {d : Document} {w1 : World}
    {d1 : Document} (h : ensureInheritedCategory w d = Except.ok (w1, d1)) :
    sameRowCore d1 d ∧ w1.revisions = w.revisions ∧
    ∃ f : Document → Document, w1.documents = w.documents.map f ∧
      ∀ e, sameRowCore (f e) e := by
  simp only [ensureInheritedCategory] at h
  repeat' split at h
  all_goals try cases h
  all_goals refine ⟨⟨rfl, rfl, rfl, rfl, rfl, rfl, rfl, rfl, rfl, rfl⟩, rfl, ?_⟩
  all_goals first
    | exact ⟨id, (List.map_id _).symm, fun e => sameRowCore_refl e⟩
    | (refine ⟨_, rfl, fun e => ?_⟩
       dsimp only
       split
       · exact ⟨rfl, rfl, rfl, rfl, rfl, rfl, rfl, rfl, rfl, rfl⟩
       · exact sameRowCore_refl e)

theorem cleanCategory_ok {w : World} {d : Document} {w1 : World}
    {d1 : Document} (h : cleanCategory w d = Except.ok (w1, d1)) :
    sameRowCore d1 d ∧ w1.revisions = w.revisions ∧
    ∃ f : Document → Document, w1.documents = w.documents.map f ∧
      ∀ e, sameRowCore (f e) e := by
  simp only [cleanCategory] at h
  split at h
  · cases h
  · exact ensureInheritedCategory_ok h

/-- `validateAndClean` only adjusts the four inherited/derived flags of the
instance, and only the `is_archived`/`category` flags of other rows. -/
theorem validateAndClean_ok {w : World} {d : Document} {w2 : World}
    {d3 : Document} (h : validateAndClean w d = Except.ok (w2, d3)) :
    sameRowCore d3 d ∧ w2.revisions = w.revisions ∧
    ∃ f : Document → Document, w2.documents = w.documents.map f ∧
      ∀ e, sameRowCore (f e) e := by
  simp only [validateAndClean] at h
  split at h
  · cases h
  · split at h
    · cases h
    · cases hcil : cleanIsLocalizable w
          {d with is_template := d.title.startsWith TEMPLATE_TITLE_START} with
      | error e => simp only [hcil] at h; cases h
      | ok d1 =>
        simp only [hcil] at h
        cases hea : ensureInheritedArchived w d1 with
        | error e => simp only [hea] at h; cases h
        | ok p1 =>
          obtain ⟨w1, d2⟩ := p1
          simp only [hea] at h
          cases hcc : cleanCategory w1 d2 with
          | error e => simp only [hcc] at h; cases h
          | ok p2 =>
            obtain ⟨w2', d3'⟩ := p2
            simp only [hcc, Except.ok.injEq, Prod.mk.injEq] at h
            obtain ⟨hw2, hd3⟩ := h
            subst hw2
            subst hd3
            have h1 := cleanIsLocalizable_core hcil
            have h2 := ensureInheritedArchived_ok hea
            have h3 := cleanCategory_ok hcc
            obtain ⟨c2, r2, f2, hf2, hf2core⟩ := h2
            obtain ⟨c3, r3, f3, hf3, hf3core⟩ := h3
            refine ⟨?_, ?_, ?_⟩
            · exact sameRowCore_trans c3 (sameRowCore_trans c2
                (sameRowCore_trans h1
                  ⟨rfl, rfl, rfl, rfl, rfl, rfl, rfl, rfl, rfl, rfl⟩))
            · rw [r3, r2]
            · refine ⟨f3 ∘ f2, ?_, fun e => sameRowCore_trans
                (hf3core (f2 e)) (hf2core e)⟩
              rw [hf3, hf2, List.map_map]

theorem find?_id_append_fresh {l : List Document} {x : Document} {i : Nat}
    (hx : x.id = some i)
    (hfresh : ∀ e ∈ l, (e.id == some i) = false) :
    (l ++ [x]).find? (fun e => e.id == some i) = some x := by
  rw [List.find?_append]
  have hnone : l.find? (fun e => e.id == some i) = none :=
    List.find?_eq_none.mpr (fun e he => by simp [hfresh e he])
  rw [hnone]
  simp [List.find?, hx]

theorem find?_id_append_other {l : List Document} {x : Document} {j : Nat}
    (hxj : (x.id == some j) = false) :
    (l ++ [x]).find? (fun e => e.id == some j) =
      l.find? (fun e => e.id == some j) := by
  rw [List.find?_append]
  cases hf : l.find? (fun e => e.id == some j) with
  | some y => rfl
  | none => simp [List.find?, hxj]

theorem find?_id_replace {l : List Document} {i : Nat} {x : Document}
    (hx : x.id = some i)
    (h : l.any (fun e => e.id == some i) = true) :
    (l.map (fun e => if e.id == some i then x else e)).find?
      (fun e => e.id == some i) = some x := by
  induction l with
  | nil => cases h
  | cons a as ih =>
    simp only [List.map_cons]
    by_cases ha : (a.id == some i) = true
    · rw [if_pos ha]
      exact List.find?_cons_of_pos _ (by simp [hx])
    · rw [if_neg ha]
      simp only [List.find?, ha]
      apply ih
      simp only [List.any_cons, Bool.or_eq_true] at h
      rcases h with h | h
      · exact absurd h ha
      · exact h

theorem any_eq_false_forall {l : List Document} {p : Document → Bool}
    (h : l.any p = false) : ∀ e ∈ l, p e = false := by
  intro e he
  by_contra hc
  rw [Bool.not_eq_false] at hc
  have : l.any p = true := List.any_eq_true.mpr ⟨e, he, hc⟩
  rw [h] at this
  cases this

theorem persistDocument_run (w : World) (d : Document) :
    ∃ i, (persistDocument w d).2.id = some i ∧
      (persistDocument w d).2 = {d with id := some i} ∧
      (persistDocument w d).1.revisions = w.revisions ∧
      getDocument (persistDocument w d).1 i =
        some (stripOld (persistDocument w d).2) ∧
      (d.id = some i ∨ d.id = none) := by
  cases hid : d.id with
  | none =>
    have hpd : persistDocument w d =
        ({w with documents :=
            w.documents ++ [stripOld {d with id := some (nextDocId w)}]},
         {d with id := some (nextDocId w)}) := by
      simp only [persistDocument, hid]
    refine ⟨nextDocId w, ?_, ?_, ?_, ?_, Or.inr rfl⟩
    · rw [hpd]
    · rw [hpd]
    · rw [hpd]
    · rw [hpd]
      simp only [getDocument]
      exact find?_id_append_fresh rfl
        (fun e he => by simpa using nextDocId_fresh he)
  | some i0 =>
    have hdd : ({d with id := some i0} : Document) = d := by
      obtain ⟨di, dt, ds, dl, dtm, dloc, dc, dll, dp, dh, dcat, da, dco, dot,
        dos⟩ := d
      simp only at hid
      subst hid
      rfl
    by_cases hany : (w.documents.any (fun e => e.id == some i0)) = true
    · have hpd : persistDocument w d =
          ({w with documents := w.documents.map (fun e => if e.id == some i0 then stripOld d else e)}, d) := by
        simp only [persistDocument, hid, hany, if_true]
      refine ⟨i0, ?_, ?_, ?_, ?_, Or.inl rfl⟩
      · rw [hpd]; exact hid
      · rw [hpd]; exact hdd.symm
      · rw [hpd]
      · rw [hpd]
        simp only [getDocument]
        exact find?_id_replace (by simp [stripOld, hid]) hany
    · rw [Bool.not_eq_true] at hany
      have hpd : persistDocument w d =
          ({w with documents := w.documents ++ [stripOld d]}, d) := by
        simp only [persistDocument, hid, hany, Bool.false_eq_true, if_false]
      refine ⟨i0, ?_, ?_, ?_, ?_, Or.inl rfl⟩
      · rw [hpd]; exact hid
      · rw [hpd]; exact hdd.symm
      · rw [hpd]
      · rw [hpd]
        simp only [getDocument]
        exact find?_id_append_fresh (by simp [stripOld, hid])
          (fun e he => any_eq_false_forall hany e he)

/-- A `Document.save` on an instance with no tracked old title/slug never
enters the redirect branch: it is exactly validate-and-clean followed by the
row write. -/
theorem documentSave_simple {fuel : Nat} {render : String → String}
    {w : World} {d : Document} {w' : World} {d' : Document}
    (ht : d.old_title = none) (hs : d.old_slug = none)
    (h : documentSave fuel render w d = Except.ok (w', d')) :
    ∃ w1 d1, validateAndClean w d = Except.ok (w1, d1) ∧
      persistDocument w1 d1 = (w', d') := by
  cases fuel with
  | zero => simp [documentSave] at h
  | succ f =>
    simp only [documentSave] at h
    cases hvc : validateAndClean w d with
    | error e => simp only [hvc] at h; cases h
    | ok p =>
      obtain ⟨w1, d1⟩ := p
      simp only [hvc] at h
      obtain ⟨core, -, -⟩ := validateAndClean_ok hvc
      obtain ⟨-, -, -, -, -, -, -, -, hot, hos⟩ := core
      obtain ⟨i, hi, heq, -, -, -⟩ := persistDocument_run w1 d1
      cases hpd : persistDocument w1 d1 with
      | mk w2 d2 =>
        rw [hpd] at h heq
        have heq2 : d2 = {d1 with id := some i} := heq
        have hguard : (d2.current_revision_id.isSome &&
            (d2.old_slug.isSome || d2.old_title.isSome)) = false := by
          have h1 : d2.old_title = none := by
            rw [heq2]
            show d1.old_title = none
            rw [hot, ht]
          have h2 : d2.old_slug = none := by
            rw [heq2]
            show d1.old_slug = none
            rw [hos, hs]
          rw [h1, h2]
          simp
        simp only [hguard, Bool.false_eq_true, if_false] at h
        cases h
        exact ⟨w1, d1, rfl, hpd⟩

/-- The fields of the saved document that a redirect-free `Document.save`
leaves untouched, and the resulting stored row. -/
theorem documentSave_simple_fields {fuel : Nat} {render : String → String}
    {w : World} {d : Document} {w' : World} {d' : Document}
    (ht : d.old_title = none) (hs : d.old_slug = none)
    (h : documentSave fuel render w d = Except.ok (w', d')) :
    w'.revisions = w.revisions ∧
    d'.current_revision_id = d.current_revision_id ∧
    d'.html = d.html ∧
    d'.latest_localizable_revision_id = d.latest_localizable_revision_id ∧
    d'.title = d.title ∧ d'.slug = d.slug ∧ d'.locale = d.locale ∧
    (∀ i0, d.id = some i0 → d'.id = some i0) ∧
    ∃ i, d'.id = some i ∧ getDocument w' i = some (stripOld d') := by
  obtain ⟨w1, d1, hvc, hpd⟩ := documentSave_simple ht hs h
  obtain ⟨core, hrev, -⟩ := validateAndClean_ok hvc
  obtain ⟨hcid, hctitle, hcslug, hcloc, hccur, hclat, hchtml, -, -, -⟩ := core
  obtain ⟨i, hi, heq, hrev2, hget, hidc⟩ := persistDocument_run w1 d1
  rw [hpd] at hi heq hrev2 hget
  have hd' : d' = {d1 with id := some i} := heq
  refine ⟨?_, ?_, ?_, ?_, ?_, ?_, ?_, ?_, i, hi, hget⟩
  · rw [hrev2, hrev]
  · rw [hd']
    show d1.current_revision_id = d.current_revision_id
    exact hccur
  · rw [hd']
    show d1.html = d.html
    exact hchtml
  · rw [hd']
    show d1.latest_localizable_revision_id = d.latest_localizable_revision_id
    exact hclat
  · rw [hd']
    show d1.title = d.title
    exact hctitle
  · rw [hd']
    show d1.slug = d.slug
    exact hcslug
  · rw [hd']
    show d1.locale = d.locale
    exact hcloc
  · intro i0 hi0
    rcases hidc with hsome | hnone
    · rw [hi]
      rw [hcid, hi0] at hsome
      exact hsome.symm
    · rw [hcid, hi0] at hnone
      cases hnone

theorem persistRevision_documents (w : World) (r : Revision) :
    (persistRevision w r).documents = w.documents := by
  unfold persistRevision
  split <;> rfl

theorem getDocument_persistRevision (w : World) (r : Revision) (i : Nat) :
    getDocument (persistRevision w r) i = getDocument w i := by
  simp [getDocument, persistRevision_documents]

theorem find?_rid_replace_other {l : List Revision} {r : Revision} {c : Nat}
    (hc : c ≠ r.id) :
    (l.map (fun x => if x.id == r.id then r else x)).find?
      (fun x => x.id == c) = l.find? (fun x => x.id == c) := by
  induction l with
  | nil => rfl
  | cons a as ih =>
    simp only [List.map_cons]
    by_cases ha : (a.id == r.id) = true
    · rw [if_pos ha]
      have ha' : a.id = r.id := by simpa using ha
      have h1 : (r.id == c) = false := by
        simp only [beq_eq_false_iff_ne, ne_eq]
        exact fun hh => hc hh.symm
      have h2 : (a.id == c) = false := by
        rw [ha']
        exact h1
      simp only [List.find?, h1, h2]
      exact ih
    · rw [if_neg ha]
      by_cases hac : (a.id == c) = true
      · simp only [List.find?, hac]
      · simp only [Bool.not_eq_true] at hac
        simp only [List.find?, hac]
        exact ih

theorem getRevision_persistRevision_other {w : World} {r : Revision} {c : Nat}
    (hc : c ≠ r.id) :
    getRevision (persistRevision w r) c = getRevision w c := by
  simp only [persistRevision]
  split
  · simp only [getRevision]
    exact find?_rid_replace_other hc
  · simp only [getRevision]
    rw [List.find?_append]
    cases hf : w.revisions.find? (fun x => x.id == c) with
    | some y => rfl
    | none =>
      have hrc : (r.id == c) = false := by
        simp only [beq_eq_false_iff_ne, ne_eq]
        exact fun hh => hc hh.symm
      simp [List.find?, hrc]

/-! ### C1: monotonic current-revision update in `Revision.save` -/

theorem approvedUpdate_ok {fuel : Nat} {render : String → String} {w : World}
    {r : Revision} {doc : Document} {w' : World} {r' : Revision}
    (ht : doc.old_title = none) (hs : doc.old_slug = none)
    (hdid : doc.id = some r.document_id)
    (h : approvedUpdate fuel render w r doc = Except.ok (w', r')) :
    ∃ doc', getDocument w' r.document_id = some doc' ∧
      doc'.current_revision_id = some r.id ∧
      doc'.html = render r.content ∧
      (r.is_ready_for_localization = true →
        doc'.latest_localizable_revision_id = some r.id) := by
  cases fuel with
  | zero => simp [approvedUpdate] at h
  | succ f =>
    by_cases hready : r.is_ready_for_localization = true
    · simp only [approvedUpdate, hready, if_true] at h
      cases hds : documentSave f render w
          {doc with contributors := updateContributors w doc,
                    latest_localizable_revision_id := some r.id,
                    html := render r.content,
                    current_revision_id := some r.id} with
      | error e => rw [hds] at h; cases h
      | ok p =>
        obtain ⟨w2, dx⟩ := p
        rw [hds] at h
        cases h
        obtain ⟨-, hcur, hhtml, hlat, -, -, -, hid8, i, hi, hget⟩ :=
          documentSave_simple_fields (d := {doc with
            contributors := updateContributors w doc,
            latest_localizable_revision_id := some r.id,
            html := render r.content,
            current_revision_id := some r.id}) ht hs hds
        have hidx := hid8 r.document_id hdid
        rw [hidx] at hi
        cases hi
        refine ⟨stripOld dx, hget, ?_, ?_, fun _ => ?_⟩
        · show dx.current_revision_id = some r.id
          rw [hcur]
        · show dx.html = render r.content
          rw [hhtml]
        · show dx.latest_localizable_revision_id = some r.id
          rw [hlat]
    · rw [Bool.not_eq_true] at hready
      simp only [approvedUpdate, hready, Bool.false_eq_true, if_false] at h
      cases hds : documentSave f render w
          {doc with contributors := updateContributors w doc,
                    html := render r.content,
                    current_revision_id := some r.id} with
      | error e => rw [hds] at h; cases h
      | ok p =>
        obtain ⟨w2, dx⟩ := p
        rw [hds] at h
        cases h
        obtain ⟨-, hcur, hhtml, -, -, -, -, hid8, i, hi, hget⟩ :=
          documentSave_simple_fields (d := {doc with
            contributors := updateContributors w doc,
            html := render r.content,
            current_revision_id := some r.id}) ht hs hds
        have hidx := hid8 r.document_id hdid
        rw [hidx] at hi
        cases hi
        refine ⟨stripOld dx, hget, ?_, ?_, fun hcontra => ?_⟩
        · show dx.current_revision_id = some r.id
          rw [hcur]
        · show dx.html = render r.content
          rw [hhtml]
        · rw [hready] at hcontra
          cases hcontra

theorem latestUpdate_preserves {fuel : Nat} {render : String → String}
    {w : World} {r : Revision} {doc : Document} {w' : World} {r' : Revision}
    (ht : doc.old_title = none) (hs : doc.old_slug = none)
    (hdid : doc.id = some r.document_id)
    (h : latestUpdate fuel render w r doc = Except.ok (w', r')) :
    ∃ doc', getDocument w' r.document_id = some doc' ∧
      doc'.current_revision_id = doc.current_revision_id ∧
      doc'.html = doc.html := by
  cases fuel with
  | zero => simp [latestUpdate] at h
  | succ f =>
    simp only [latestUpdate] at h
    cases hds : documentSave f render w
        {doc with latest_localizable_revision_id := some r.id} with
    | error e => rw [hds] at h; cases h
    | ok p =>
      obtain ⟨w2, dx⟩ := p
      rw [hds] at h
      cases h
      obtain ⟨-, hcur, hhtml, -, -, -, -, hid8, i, hi, hget⟩ :=
        documentSave_simple_fields
          (d := {doc with latest_localizable_revision_id := some r.id})
          ht hs hds
      have hidx := hid8 r.document_id hdid
      rw [hidx] at hi
      cases hi
      refine ⟨stripOld dx, hget, ?_, ?_⟩
      · show dx.current_revision_id = doc.current_revision_id
        rw [hcur]
      · show dx.html = doc.html
        rw [hhtml]

theorem readyUpdate_preserves {fuel : Nat} {render : String → String}
    {w : World} {r : Revision} {doc : Document} {w' : World} {r' : Revision}
    (ht : doc.old_title = none) (hs : doc.old_slug = none)
    (hdid : doc.id = some r.document_id)
    (hdocw : getDocument w r.document_id = some doc)
    (h : readyUpdate fuel render w r doc = Except.ok (w', r')) :
    ∃ doc', getDocument w' r.document_id = some doc' ∧
      doc'.current_revision_id = doc.current_revision_id ∧
      doc'.html = doc.html := by
  cases fuel with
  | zero => simp [readyUpdate] at h
  | succ f =>
    simp only [readyUpdate] at h
    by_cases hready : r.is_ready_for_localization = true
    · rw [if_pos hready] at h
      cases hlat : doc.latest_localizable_revision_id with
      | none =>
        rw [hlat] at h
        exact latestUpdate_preserves ht hs hdid h
      | some l =>
        simp only [hlat] at h
        cases hlr : getRevision w l with
        | none => simp only [hlr] at h; cases h
        | some lr =>
          simp only [hlr] at h
          by_cases hcmp : lr.id < r.id
          · rw [if_pos hcmp] at h
            exact latestUpdate_preserves ht hs hdid h
          · rw [if_neg hcmp] at h
            cases h
            exact ⟨doc, hdocw, rfl, rfl⟩
    · rw [Bool.not_eq_true] at hready
      rw [hready] at h
      simp only [Bool.false_eq_true, if_false] at h
      cases h
      exact ⟨doc, hdocw, rfl, rfl⟩

/-- C1: when an approved revision R is saved on document D (stored row
`doc`), then: if D.current_revision is unset or has a smaller id than R, the
save sets the stored current revision to R, the cached html to
render(R.content), and, when R is ready for localization, the latest
localizable revision to R; if D.current_revision has an id greater than R's,
the save leaves the stored current revision and html unchanged. -/
theorem revision_save_monotonic (fuel : Nat) (render : String → String)
    (w : World) (r : Revision) (doc : Document) (w' : World) (r' : Revision)
    (happ : r.is_approved = true)
    (hdoc : getDocument w r.document_id = some doc)
    (ht : doc.old_title = none) (hs : doc.old_slug = none)
    (hok : revisionSave fuel render w r = Except.ok (w', r')) :
    ((doc.current_revision_id = none ∨
      (∃ c cr, doc.current_revision_id = some c ∧ getRevision w c = some cr ∧
        cr.id < r.id)) →
      ∃ doc', getDocument w' r.document_id = some doc' ∧
        doc'.current_revision_id = some r.id ∧
        doc'.html = render r.content ∧
        (r.is_ready_for_localization = true →
          doc'.latest_localizable_revision_id = some r.id)) ∧
    (∀ c cr, doc.current_revision_id = some c → getRevision w c = some cr →
      r.id < cr.id →
      ∃ doc', getDocument w' r.document_id = some doc' ∧
        doc'.current_revision_id = doc.current_revision_id ∧
        doc'.html = doc.html) := by
  have hdid : doc.id = some r.document_id := getDocument_id hdoc
  cases fuel with
  | zero => simp [revisionSave] at hok
  | succ f =>
    simp only [revisionSave] at hok
    cases hboc : basedOnIsClean w r with
    | error e => simp only [hboc] at hok; cases hok
    | ok p =>
      obtain ⟨v, flag⟩ := p
      cases flag with
      | false => simp only [hboc] at hok; cases hok
      | true =>
        simp only [hboc] at hok
        rw [getDocument_persistRevision] at hok
        simp only [hdoc] at hok
        rw [if_pos happ] at hok
        have hdocw1 : getDocument (persistRevision w r) r.document_id =
            some doc := by
          rw [getDocument_persistRevision]
          exact hdoc
        constructor
        · intro hA
          rcases hA with hnone | ⟨c, cr, hcur, hcr, hlt⟩
          · simp only [hnone] at hok
            exact approvedUpdate_ok ht hs hdid hok
          · have hcid : cr.id = c := getRevision_id hcr
            have hcne : c ≠ r.id := by omega
            simp only [hcur] at hok
            rw [getRevision_persistRevision_other hcne] at hok
            simp only [hcr] at hok
            rw [if_pos hlt] at hok
            exact approvedUpdate_ok ht hs hdid hok
        · intro c cr hcur hcr hlt
          have hcid : cr.id = c := getRevision_id hcr
          have hcne : c ≠ r.id := by omega
          simp only [hcur] at hok
          rw [getRevision_persistRevision_other hcne] at hok
          simp only [hcr] at hok
          rw [if_neg (by omega)] at hok
          exact readyUpdate_preserves ht hs hdid hdocw1 hok

def c1render : String → String := fun s => "<p>" ++ s ++ "</p>"

def c1doc : Document :=
  { id := some 1, title := "Foo", slug := "foo", locale := "en-US",
    is_template := false, is_localizable := true,
    current_revision_id := some 1, latest_localizable_revision_id := none,
    parent_id := none, html := "", category := 10, is_archived := false,
    contributors := [], old_title := none, old_slug := none }

def c1rev1 : Revision :=
  { id := 1, document_id := 1, summary := "", content := "hello",
    significance := some 20, reviewed_set := true, is_approved := true,
    based_on_id := none, is_ready_for_localization := false,
    creator := 7, reviewer := some 7 }

def c1rev2 : Revision :=
  { id := 2, document_id := 1, summary := "", content := "world",
    significance := some 20, reviewed_set := true, is_approved := true,
    based_on_id := none, is_ready_for_localization := true,
    creator := 8, reviewer := some 7 }

def c1w : World := { documents := [c1doc], revisions := [c1rev1] }

def c1doc' : Document :=
  { id := some 1, title := "Foo", slug := "foo", locale := "en-US",
    is_template := false, is_localizable := true,
    current_revision_id := some 2, latest_localizable_revision_id := some 2,
    parent_id := none, html := "<p>world</p>", category := 10,
    is_archived := false, contributors := [8], old_title := none,
    old_slug := none }

def c1w' : World := { documents := [c1doc'], revisions := [c1rev1, c1rev2] }

theorem revision_save_monotonic_witness :
    ∃ doc', getDocument c1w' c1rev2.document_id = some doc' ∧
      doc'.current_revision_id = some c1rev2.id ∧
      doc'.html = c1render c1rev2.content ∧
      (c1rev2.is_ready_for_localization = true →
        doc'.latest_localizable_revision_id = some c1rev2.id) :=
  (revision_save_monotonic 10 c1render c1w c1rev2 c1doc c1w' c1rev2
    rfl rfl rfl rfl rfl).1
    (Or.inr ⟨1, c1rev1, rfl, rfl, by decide⟩)

/-! ### C10: no self-collision on plain re-save -/

theorem cleanIsLocalizable_error {w : World} {d : Document} {e : SaveError}
    (h : cleanIsLocalizable w d = Except.error e) :
    e = SaveError.validation ∨ e = SaveError.missingRef := by
  simp only [cleanIsLocalizable] at h
  repeat' split at h
  all_goals try cases h
  all_goals first
    | exact Or.inl rfl
    | exact Or.inr rfl

theorem ensureInheritedArchived_error {w : World} {d : Document}
    {e : SaveError} (h : ensureInheritedArchived w d = Except.error e) :
    e = SaveError.validation ∨ e = SaveError.missingRef := by
  simp only [ensureInheritedArchived] at h
  repeat' split at h
  all_goals try cases h
  all_goals first
    | exact Or.inl rfl
    | exact Or.inr rfl

theorem cleanCategory_error {w : World} {d : Document} {e : SaveError}
    (h : cleanCategory w d = Except.error e) :
    e = SaveError.validation ∨ e = SaveError.missingRef := by
  simp only [cleanCategory, ensureInheritedCategory] at h
  repeat' split at h
  all_goals try cases h
  all_goals first
    | exact Or.inl rfl
    | exact Or.inr rfl

theorem validateAndClean_error {w : World} {d : Document} {e : SaveError}
    {i : Nat} (hid : d.id = some i)
    (ht : d.old_title = none) (hs : d.old_slug = none)
    (h : validateAndClean w d = Except.error e) :
    e = SaveError.validation ∨ e = SaveError.missingRef := by
  simp only [validateAndClean] at h
  have hg1 : raiseIfCollides w
      {d with is_template := d.title.startsWith TEMPLATE_TITLE_START}
      Attr.slug = false := by
    simp [raiseIfCollides, oldAttr, hid, hs]
  have hg2 : raiseIfCollides w
      {d with is_template := d.title.startsWith TEMPLATE_TITLE_START}
      Attr.title = false := by
    simp [raiseIfCollides, oldAttr, hid, ht]
  rw [hg1, hg2] at h
  simp only [Bool.false_eq_true, if_false] at h
  cases hcil : cleanIsLocalizable w
      {d with is_template := d.title.startsWith TEMPLATE_TITLE_START} with
  | error e' =>
    simp only [hcil] at h
    cases h
    exact cleanIsLocalizable_error hcil
  | ok d1 =>
    simp only [hcil] at h
    cases hea : ensureInheritedArchived w d1 with
    | error e' =>
      simp only [hea] at h
      cases h
      exact ensureInheritedArchived_error hea
    | ok p1 =>
      obtain ⟨w1, d2⟩ := p1
      simp only [hea] at h
      cases hcc : cleanCategory w1 d2 with
      | error e' =>
        simp only [hcc] at h
        cases h
        exact cleanCategory_error hcc
      | ok p2 =>
        obtain ⟨w2, d3⟩ := p2
        simp only [hcc] at h
        cases h

/-- C10: saving an already-persisted document whose title and slug carry no
tracked old value never raises SlugCollision or TitleCollision: the
collision pre-check runs only when the document is new or tracked old
values exist, and with no tracked values the redirect branch (where a new
document would be collision-checked) is skipped as well. -/
theorem save_no_self_collision (fuel : Nat) (render : String → String)
    (w : World) (d : Document) (i : Nat)
    (hid : d.id = some i)
    (ht : d.old_title = none) (hs : d.old_slug = none) :
    documentSave fuel render w d ≠ Except.error SaveError.slugCollision ∧
    documentSave fuel render w d ≠ Except.error SaveError.titleCollision := by
  cases fuel with
  | zero =>
    constructor <;> (intro hcontra; simp [documentSave] at hcontra)
  | succ f =>
    cases hvc : validateAndClean w d with
    | error e =>
      have he := validateAndClean_error hid ht hs hvc
      constructor <;> intro hcontra <;>
        (simp only [documentSave, hvc] at hcontra
         cases hcontra
         rcases he with h | h <;> cases h)
    | ok p =>
      obtain ⟨w1, d1⟩ := p
      obtain ⟨core, -, -⟩ := validateAndClean_ok hvc
      obtain ⟨-, -, -, -, -, -, -, -, hot, hos⟩ := core
      obtain ⟨j, hj, heq, -, -, -⟩ := persistDocument_run w1 d1
      constructor <;> intro hcontra <;>
        (simp only [documentSave, hvc] at hcontra
         revert hcontra
         cases hpd : persistDocument w1 d1 with
         | mk w2 d2 =>
           intro hcontra
           rw [hpd] at heq
           have heq2 : d2 = {d1 with id := some j} := heq
           have hguard : (d2.current_revision_id.isSome &&
               (d2.old_slug.isSome || d2.old_title.isSome)) = false := by
             have h1 : d2.old_title = none := by
               rw [heq2]
               show d1.old_title = none
               rw [hot, ht]
             have h2 : d2.old_slug = none := by
               rw [heq2]
               show d1.old_slug = none
               rw [hos, hs]
             rw [h1, h2]
             simp
           rw [hguard] at hcontra
           simp only [Bool.false_eq_true, if_false] at hcontra
           cases hcontra)

theorem save_no_self_collision_witness :
    documentSave 10 c1render c1w c1doc ≠ Except.error SaveError.slugCollision ∧
    documentSave 10 c1render c1w c1doc ≠ Except.error SaveError.titleCollision :=
  save_no_self_collision 10 c1render c1w c1doc 1 rfl rfl rfl

/-! ### C3: `Revision.delete` re-pointing -/

theorem getDocument_any {w : World} {i : Nat} {d : Document}
    (h : getDocument w i = some d) :
    w.documents.any (fun e => e.id == some i) = true :=
  List.any_eq_true.mpr ⟨d, getDocument_mem h, by simp [getDocument_id h]⟩

theorem getDocument_setRevisions (w : World) (X : List Revision) (i : Nat) :
    getDocument {w with revisions := X} i = getDocument w i := rfl

theorem latest_revision_some {w : World} {document : Document}
    {excluded : Revision} {p : Revision → Bool} {m : Revision}
    (hm : latest_revision w document excluded p = some m) :
    m ∈ w.revisions ∧ some m.document_id = document.id ∧ p m = true ∧
    m.id ≠ excluded.id ∧
    ∀ y ∈ w.revisions, some y.document_id = document.id → p y = true →
      y.id ≠ excluded.id → y.id ≤ m.id := by
  simp only [latest_revision] at hm
  have hmem := latestBy_mem hm
  rw [List.mem_filter] at hmem
  obtain ⟨hmem1, hcond⟩ := hmem
  simp only [docRevisions, List.mem_filter] at hmem1
  rw [Bool.and_eq_true] at hcond
  refine ⟨hmem1.1, by simpa using hmem1.2, hcond.1, by simpa using hcond.2, ?_⟩
  intro y hy hyd hyp hyne
  refine latestBy_le hm y (List.mem_filter.mpr ⟨?_, ?_⟩)
  · simp only [docRevisions, List.mem_filter]
    exact ⟨hy, by simpa using hyd⟩
  · rw [Bool.and_eq_true]
    exact ⟨hyp, by simpa using hyne⟩

theorem latest_revision_none {w : World} {document : Document}
    {excluded : Revision} {p : Revision → Bool}
    (hnone : latest_revision w document excluded p = none) :
    ∀ y ∈ w.revisions, some y.document_id = document.id → p y = true →
      y.id ≠ excluded.id → False := by
  intro y hy hyd hyp hyne
  simp only [latest_revision] at hnone
  have hnil := latestBy_eq_none.mp hnone
  have hymem : y ∈ ((docRevisions w document).filter
      (fun x => p x && x.id != excluded.id)) := by
    refine List.mem_filter.mpr ⟨?_, ?_⟩
    · simp only [docRevisions, List.mem_filter]
      exact ⟨hy, by simpa using hyd⟩
    · rw [Bool.and_eq_true]
      exact ⟨hyp, by simpa using hyne⟩
  rw [hnil] at hymem
  cases hymem

theorem deleted_revisions_spec (w : World) (r : Revision) (rs : List Revision)
    (hrs : rs = (w.revisions.map (fun x =>
        if x.based_on_id == some r.id then {x with based_on_id := none}
        else x)).filter (fun x => x.id != r.id)) :
    (∀ x ∈ rs, x.based_on_id ≠ some r.id) ∧
    (∀ x ∈ w.revisions, x.id ≠ r.id →
      (if x.based_on_id = some r.id then {x with based_on_id := none} else x)
        ∈ rs) ∧
    (∀ x ∈ rs, x.id ≠ r.id) := by
  subst hrs
  refine ⟨?_, ?_, ?_⟩
  · intro x hx
    rw [List.mem_filter] at hx
    obtain ⟨hx1, -⟩ := hx
    rw [List.mem_map] at hx1
    obtain ⟨orig, -, heq⟩ := hx1
    subst heq
    by_cases hb : (orig.based_on_id == some r.id) = true
    · rw [if_pos hb]
      simp
    · rw [if_neg hb]
      simpa using hb
  · intro x hxmem hxid
    rw [List.mem_filter]
    constructor
    · rw [List.mem_map]
      refine ⟨x, hxmem, ?_⟩
      by_cases hb : x.based_on_id = some r.id
      · rw [if_pos (by simp [hb]), if_pos hb]
      · rw [if_neg (by simp [hb]), if_neg hb]
    · have : (if x.based_on_id = some r.id then
          {x with based_on_id := none} else x).id = x.id := by
        split <;> rfl
      rw [this]
      simpa using hxid
  · intro x hx
    rw [List.mem_filter] at hx
    simpa using hx.2

theorem documentUpdate_get {w : World} {i : Nat} {row : Document}
    (hrow : getDocument w i = some row) {d : Document} (hdi : d.id = some i)
    (f : Document → Document) (hfid : (f d).id = some i) :
    getDocument (documentUpdate w d f).1 i = some (stripOld (f d)) ∧
    (documentUpdate w d f).1.revisions = w.revisions ∧
    (documentUpdate w d f).2 = f d := by
  refine ⟨?_, rfl, rfl⟩
  simp only [documentUpdate, getDocument]
  have hfn : (fun e => if e.id == d.id && d.id.isSome then stripOld (f d)
      else e) = (fun e => if e.id == some i then stripOld (f d) else e) := by
    funext e
    rw [hdi]
    simp
  rw [hfn]
  exact find?_id_replace hfid (getDocument_any hrow)

theorem deleteCurrentUpdate_run {render : String → String} {w1 : World}
    {document : Document} {self : Revision} {i : Nat} {row : Document}
    (hrow : getDocument w1 i = some row) (hdi : document.id = some i) :
    (deleteCurrentUpdate render w1 document self).2 =
      {document with
        current_revision_id := (latest_revision w1 document self
          (fun x => x.is_approved)).map (fun x => x.id),
        html := match latest_revision w1 document self
            (fun x => x.is_approved) with
          | some nc => render nc.content
          | none => ""} ∧
    getDocument (deleteCurrentUpdate render w1 document self).1 i =
      some (stripOld (deleteCurrentUpdate render w1 document self).2) ∧
    (deleteCurrentUpdate render w1 document self).1.revisions =
      w1.revisions := by
  have h := documentUpdate_get hrow hdi
    (fun d => {d with
      current_revision_id := (latest_revision w1 document self
        (fun x => x.is_approved)).map (fun x => x.id),
      html := match latest_revision w1 document self
          (fun x => x.is_approved) with
        | some nc => render nc.content
        | none => ""}) hdi
  exact ⟨h.2.2, h.1, h.2.1⟩

theorem deleteLatestUpdate_run {w2 : World} {document2 : Document}
    {self : Revision} {i : Nat} {row : Document}
    (hrow : getDocument w2 i = some row) (hdi : document2.id = some i) :
    (deleteLatestUpdate w2 document2 self).2 =
      {document2 with
        latest_localizable_revision_id := (latest_revision w2 document2 self
          (fun x => x.is_approved && x.is_ready_for_localization)).map
          (fun x => x.id)} ∧
    getDocument (deleteLatestUpdate w2 document2 self).1 i =
      some (stripOld (deleteLatestUpdate w2 document2 self).2) ∧
    (deleteLatestUpdate w2 document2 self).1.revisions = w2.revisions := by
  have h := documentUpdate_get hrow hdi
    (fun d => {d with
      latest_localizable_revision_id := (latest_revision w2 document2 self
        (fun x => x.is_approved && x.is_ready_for_localization)).map
        (fun x => x.id)}) hdi
  exact ⟨h.2.2, h.1, h.2.1⟩

theorem latest_revision_repoint {w1 : World} {doc : Document} {r : Revision}
    {i : Nat} (hdid : doc.id = some i) (p : Revision → Bool)
    (rs : List Revision)
    (hrs : rs = w1.revisions.filter (fun x => x.id != r.id)) :
    (latest_revision w1 doc r p = none →
      ∀ y ∈ rs, y.document_id = i → p y = false) ∧
    (∀ m, latest_revision w1 doc r p = some m →
      m ∈ rs ∧ m.document_id = i ∧ p m = true ∧
      ∀ y ∈ rs, y.document_id = i → p y = true → y.id ≤ m.id) := by
  subst hrs
  constructor
  · intro hnone y hy hyd
    rw [List.mem_filter] at hy
    by_contra hc
    rw [Bool.not_eq_false] at hc
    exact latest_revision_none hnone y hy.1 (by rw [hdid, hyd]) hc
      (by simpa using hy.2)
  · intro m hm
    obtain ⟨hmem, hmdoc, hmp, hmne, hmax⟩ := latest_revision_some hm
    have hmdoc' : m.document_id = i := by
      rw [hdid] at hmdoc
      simpa using hmdoc
    refine ⟨List.mem_filter.mpr ⟨hmem, by simpa using hmne⟩, hmdoc', hmp, ?_⟩
    intro y hy hyd hyp
    rw [List.mem_filter] at hy
    exact hmax y hy.1 (by rw [hdid, hyd]) hyp (by simpa using hy.2)

/-- C3: deleting revision R from its document D nulls every other
revision's `based_on` that referenced R while keeping everything else,
removes R, re-points D's current revision to the highest-id remaining
approved revision (with its rendered content cached, or none and empty
html), and re-points D's latest localizable revision to the highest-id
remaining approved-and-ready revision (or none). -/
theorem revision_delete_spec (render : String → String) (w : World)
    (r : Revision) (doc : Document) (w' : World)
    (hdoc : getDocument w r.document_id = some doc)
    (hok : revisionDelete render w r = Except.ok w') :
    (∀ x ∈ w'.revisions, x.based_on_id ≠ some r.id) ∧
    (∀ x ∈ w.revisions, x.id ≠ r.id →
      (if x.based_on_id = some r.id then {x with based_on_id := none} else x)
        ∈ w'.revisions) ∧
    (∀ x ∈ w'.revisions, x.id ≠ r.id) ∧
    (doc.current_revision_id = some r.id →
      ∃ doc', getDocument w' r.document_id = some doc' ∧
        ((doc'.current_revision_id = none ∧ doc'.html = "" ∧
          ∀ y ∈ w'.revisions, y.document_id = r.document_id →
            y.is_approved = false) ∨
         (∃ m, m ∈ w'.revisions ∧ m.document_id = r.document_id ∧
           m.is_approved = true ∧ doc'.current_revision_id = some m.id ∧
           doc'.html = render m.content ∧
           ∀ y ∈ w'.revisions, y.document_id = r.document_id →
             y.is_approved = true → y.id ≤ m.id))) ∧
    (doc.latest_localizable_revision_id = some r.id →
      ∃ doc', getDocument w' r.document_id = some doc' ∧
        ((doc'.latest_localizable_revision_id = none ∧
          ∀ y ∈ w'.revisions, y.document_id = r.document_id →
            (y.is_approved && y.is_ready_for_localization) = false) ∨
         (∃ m, m ∈ w'.revisions ∧ m.document_id = r.document_id ∧
           (m.is_approved && m.is_ready_for_localization) = true ∧
           doc'.latest_localizable_revision_id = some m.id ∧
           ∀ y ∈ w'.revisions, y.document_id = r.document_id →
             (y.is_approved && y.is_ready_for_localization) = true →
             y.id ≤ m.id))) := by
  have hdid : doc.id = some r.document_id := getDocument_id hdoc
  simp only [revisionDelete] at hok
  rw [getDocument_setRevisions] at hok
  simp only [hdoc] at hok
  set w1 : World := {w with revisions := w.revisions.map (fun x =>
    if x.based_on_id == some r.id then {x with based_on_id := none} else x)}
    with hw1
  have hrow1 : getDocument w1 r.document_id = some doc := by
    rw [hw1]
    exact hdoc
  have hrsnul : w1.revisions = w.revisions.map (fun x =>
      if x.based_on_id == some r.id then {x with based_on_id := none}
      else x) := by
    rw [hw1]
  obtain ⟨c1, c2, c3⟩ := deleted_revisions_spec w r
    (w1.revisions.filter (fun x => x.id != r.id)) (by rw [hrsnul])
  by_cases hcur : (doc.current_revision_id == some r.id) = true
  · rw [if_pos hcur] at hok
    cases hdu1 : deleteCurrentUpdate render w1 doc r with
    | mk w2 doc2 =>
      simp only [hdu1] at hok
      obtain ⟨hd2Raw, hget2Raw, hrev2Raw⟩ :=
        @deleteCurrentUpdate_run render w1 doc r r.document_id doc hrow1 hdid
      rw [hdu1] at hd2Raw hget2Raw hrev2Raw
      have hd2 : doc2 = {doc with
          current_revision_id := (latest_revision w1 doc r
            (fun x => x.is_approved)).map (fun x => x.id),
          html := match latest_revision w1 doc r (fun x => x.is_approved) with
            | some nc => render nc.content
            | none => ""} := hd2Raw
      have hget2 : getDocument w2 r.document_id = some (stripOld doc2) :=
        hget2Raw
      have hrev2 : w2.revisions = w1.revisions := hrev2Raw
      have hd2id : doc2.id = some r.document_id := by
        rw [hd2]
        exact hdid
      have hcond : (doc2.latest_localizable_revision_id == some r.id) =
          (doc.latest_localizable_revision_id == some r.id) := by
        rw [hd2]
      rw [hcond] at hok
      by_cases hlat : (doc.latest_localizable_revision_id == some r.id) = true
      · rw [if_pos hlat] at hok
        cases hdu2 : deleteLatestUpdate w2 doc2 r with
        | mk w3 doc3 =>
          simp only [hdu2] at hok
          obtain ⟨hd3Raw, hget3Raw, hrev3Raw⟩ :=
            @deleteLatestUpdate_run w2 doc2 r r.document_id (stripOld doc2)
              hget2 hd2id
          rw [hdu2] at hd3Raw hget3Raw hrev3Raw
          have hd3 : doc3 = {doc2 with
              latest_localizable_revision_id := (latest_revision w2 doc2 r
                (fun x => x.is_approved && x.is_ready_for_localization)).map
                (fun x => x.id)} := hd3Raw
          have hget3 : getDocument w3 r.document_id = some (stripOld doc3) :=
            hget3Raw
          have hrev3 : w3.revisions = w2.revisions := hrev3Raw
          cases hok
          have hrsfact : ({w3 with revisions := w3.revisions.filter (fun x => x.id != r.id)} : World).revisions =
              w1.revisions.filter (fun x => x.id != r.id) := by
            show w3.revisions.filter _ = _
            rw [hrev3, hrev2]
          rw [hrsfact]
          refine ⟨c1, c2, c3, ?_, ?_⟩
          · intro _
            refine ⟨stripOld doc3, hget3, ?_⟩
            have hcur3 : (stripOld doc3).current_revision_id =
                (latest_revision w1 doc r (fun x => x.is_approved)).map
                  (fun x => x.id) := by
              show doc3.current_revision_id = _
              rw [hd3]
              show doc2.current_revision_id = _
              rw [hd2]
            have hhtml3 : (stripOld doc3).html =
                (match latest_revision w1 doc r (fun x => x.is_approved) with
                 | some nc => render nc.content
                 | none => "") := by
              show doc3.html = _
              rw [hd3]
              show doc2.html = _
              rw [hd2]
            obtain ⟨hrepA, hrepB⟩ := latest_revision_repoint hdid
              (fun x => x.is_approved)
              (w1.revisions.filter (fun x => x.id != r.id)) rfl
            cases hnc : latest_revision w1 doc r (fun x => x.is_approved) with
            | none =>
              left
              rw [hnc] at hcur3 hhtml3
              exact ⟨hcur3, hhtml3, hrepA hnc⟩
            | some m =>
              right
              rw [hnc] at hcur3 hhtml3
              obtain ⟨hm1, hm2, hm3, hm4⟩ := hrepB m hnc
              exact ⟨m, hm1, hm2, hm3, hcur3, hhtml3, hm4⟩
          · intro _
            refine ⟨stripOld doc3, hget3, ?_⟩
            have hlat3 : (stripOld doc3).latest_localizable_revision_id =
                (latest_revision w2 doc2 r
                  (fun x => x.is_approved && x.is_ready_for_localization)).map
                  (fun x => x.id) := by
              show doc3.latest_localizable_revision_id = _
              rw [hd3]
            obtain ⟨hrepA, hrepB⟩ := latest_revision_repoint hd2id
              (fun x => x.is_approved && x.is_ready_for_localization)
              (w1.revisions.filter (fun x => x.id != r.id)) (by rw [hrev2])
            cases hnc : latest_revision w2 doc2 r
                (fun x => x.is_approved && x.is_ready_for_localization) with
            | none =>
              left
              rw [hnc] at hlat3
              exact ⟨hlat3, hrepA hnc⟩
            | some m =>
              right
              rw [hnc] at hlat3
              obtain ⟨hm1, hm2, hm3, hm4⟩ := hrepB m hnc
              exact ⟨m, hm1, hm2, hm3, hlat3, hm4⟩
      · rw [if_neg hlat] at hok
        dsimp only at hok
        cases hok
        have hrsfact : ({w2 with revisions := w2.revisions.filter (fun x => x.id != r.id)} : World).revisions =
            w1.revisions.filter (fun x => x.id != r.id) := by
          show w2.revisions.filter _ = _
          rw [hrev2]
        rw [hrsfact]
        refine ⟨c1, c2, c3, ?_, ?_⟩
        · intro _
          refine ⟨stripOld doc2, hget2, ?_⟩
          have hcur2 : (stripOld doc2).current_revision_id =
              (latest_revision w1 doc r (fun x => x.is_approved)).map
                (fun x => x.id) := by
            show doc2.current_revision_id = _
            rw [hd2]
          have hhtml2 : (stripOld doc2).html =
              (match latest_revision w1 doc r (fun x => x.is_approved) with
               | some nc => render nc.content
               | none => "") := by
            show doc2.html = _
            rw [hd2]
          obtain ⟨hrepA, hrepB⟩ := latest_revision_repoint hdid
            (fun x => x.is_approved)
            (w1.revisions.filter (fun x => x.id != r.id)) rfl
          cases hnc : latest_revision w1 doc r (fun x => x.is_approved) with
          | none =>
            left
            rw [hnc] at hcur2 hhtml2
            exact ⟨hcur2, hhtml2, hrepA hnc⟩
          | some m =>
            right
            rw [hnc] at hcur2 hhtml2
            obtain ⟨hm1, hm2, hm3, hm4⟩ := hrepB m hnc
            exact ⟨m, hm1, hm2, hm3, hcur2, hhtml2, hm4⟩
        · intro hlatP
          exact absurd (by rw [hlatP]; simp) hlat
  · rw [if_neg hcur] at hok
    dsimp only at hok
    by_cases hlat : (doc.latest_localizable_revision_id == some r.id) = true
    · rw [if_pos hlat] at hok
      cases hdu2 : deleteLatestUpdate w1 doc r with
      | mk w3 doc3 =>
        simp only [hdu2] at hok
        obtain ⟨hd3Raw, hget3Raw, hrev3Raw⟩ :=
          @deleteLatestUpdate_run w1 doc r r.document_id doc hrow1 hdid
        rw [hdu2] at hd3Raw hget3Raw hrev3Raw
        have hd3 : doc3 = {doc with
            latest_localizable_revision_id := (latest_revision w1 doc r
              (fun x => x.is_approved && x.is_ready_for_localization)).map
              (fun x => x.id)} := hd3Raw
        have hget3 : getDocument w3 r.document_id = some (stripOld doc3) :=
          hget3Raw
        have hrev3 : w3.revisions = w1.revisions := hrev3Raw
        cases hok
        have hrsfact : ({w3 with revisions := w3.revisions.filter (fun x => x.id != r.id)} : World).revisions =
            w1.revisions.filter (fun x => x.id != r.id) := by
          show w3.revisions.filter _ = _
          rw [hrev3]
        rw [hrsfact]
        refine ⟨c1, c2, c3, ?_, ?_⟩
        · intro hcurP
          exact absurd (by rw [hcurP]; simp) hcur
        · intro _
          refine ⟨stripOld doc3, hget3, ?_⟩
          have hlat3 : (stripOld doc3).latest_localizable_revision_id =
              (latest_revision w1 doc r
                (fun x => x.is_approved && x.is_ready_for_localization)).map
                (fun x => x.id) := by
            show doc3.latest_localizable_revision_id = _
            rw [hd3]
          obtain ⟨hrepA, hrepB⟩ := latest_revision_repoint hdid
            (fun x => x.is_approved && x.is_ready_for_localization)
            (w1.revisions.filter (fun x => x.id != r.id)) rfl
          cases hnc : latest_revision w1 doc r
              (fun x => x.is_approved && x.is_ready_for_localization) with
          | none =>
            left
            rw [hnc] at hlat3
            exact ⟨hlat3, hrepA hnc⟩
          | some m =>
            right
            rw [hnc] at hlat3
            obtain ⟨hm1, hm2, hm3, hm4⟩ := hrepB m hnc
            exact ⟨m, hm1, hm2, hm3, hlat3, hm4⟩
    · rw [if_neg hlat] at hok
      dsimp only at hok
      cases hok
      have hrsfact : ({w1 with revisions := w1.revisions.filter (fun x => x.id != r.id)} : World).revisions =
          w1.revisions.filter (fun x => x.id != r.id) := rfl
      rw [hrsfact]
      refine ⟨c1, c2, c3, ?_, ?_⟩
      · intro hcurP
        exact absurd (by rw [hcurP]; simp) hcur
      · intro hlatP
        exact absurd (by rw [hlatP]; simp) hlat

def c3w : World := { documents := [c1doc], revisions := [c1rev1, c1rev2] }

def c3doc' : Document :=
  { id := some 1, title := "Foo", slug := "foo", locale := "en-US",
    is_template := false, is_localizable := true,
    current_revision_id := some 2, latest_localizable_revision_id := none,
    parent_id := none, html := "<p>world</p>", category := 10,
    is_archived := false, contributors := [], old_title := none,
    old_slug := none }

def c3w' : World := { documents := [c3doc'], revisions := [c1rev2] }

theorem revision_delete_spec_witness :
    c1doc.current_revision_id = some c1rev1.id ∧
    (∃ doc', getDocument c3w' c1rev1.document_id = some doc' ∧
      ((doc'.current_revision_id = none ∧ doc'.html = "" ∧
        ∀ y ∈ c3w'.revisions, y.document_id = c1rev1.document_id →
          y.is_approved = false) ∨
       (∃ m, m ∈ c3w'.revisions ∧ m.document_id = c1rev1.document_id ∧
         m.is_approved = true ∧ doc'.current_revision_id = some m.id ∧
         doc'.html = c1render m.content ∧
         ∀ y ∈ c3w'.revisions, y.document_id = c1rev1.document_id →
           y.is_approved = true → y.id ≤ m.id))) :=
  ⟨rfl,
   (revision_delete_spec c1render c3w c1rev1 c1doc c3w' rfl rfl).2.2.2.1 rfl⟩

/-! ### Inversion of the redirect-creation chain (for C2 and C6) -/

theorem getDocument_map_id_preserve (w : World) (f : Document → Document)
    (hf : ∀ e, (f e).id = e.id) (i : Nat) :
    getDocument {w with documents := w.documents.map f} i =
      (getDocument w i).map f := by
  simp only [getDocument, List.find?_map]
  have hfn : ((fun d => d.id == some i) ∘ f) = (fun d => d.id == some i) := by
    funext e
    simp [Function.comp, hf]
  rw [hfn]

theorem find?_docid_replace_other {l : List Document} {i j : Nat}
    {x : Document} (hx : x.id = some i) (hij : j ≠ i) :
    (l.map (fun e => if e.id == some i then x else e)).find?
      (fun e => e.id == some j) = l.find? (fun e => e.id == some j) := by
  induction l with
  | nil => rfl
  | cons a as ih =>
    simp only [List.map_cons]
    by_cases ha : (a.id == some i) = true
    · rw [if_pos ha]
      have ha' : a.id = some i := by simpa using ha
      have h1 : (x.id == some j) = false := by
        rw [hx]
        simp
        exact fun hh => hij hh.symm
      have h2 : (a.id == some j) = false := by
        rw [ha']
        simp
        exact fun hh => hij hh.symm
      simp only [List.find?, h1, h2]
      exact ih
    · rw [if_neg ha]
      by_cases hac : (a.id == some j) = true
      · simp only [List.find?, hac]
      · simp only [Bool.not_eq_true] at hac
        simp only [List.find?, hac]
        exact ih

def redirectDoc (w : World) (t s loc : String) (cat : Int) : Document :=
  { id := some (nextDocId w), title := t, slug := s, locale := loc,
    is_template := t.startsWith TEMPLATE_TITLE_START, is_localizable := false,
    current_revision_id := none, latest_localizable_revision_id := none,
    parent_id := none, html := "", category := cat, is_archived := false,
    contributors := [], old_title := none, old_slug := none }

/-- The translation-table update `_ensure_inherited_attr('is_archived')`
performs for a saved root document. -/
def archUpd (d : Document) : Document → Document := fun e =>
  if e.parent_id == d.id && e.parent_id.isSome then
    {e with is_archived := d.is_archived} else e

/-- The translation-table update `_ensure_inherited_attr('category')`
performs for a saved root document. -/
def catUpd (d : Document) : Document → Document := fun e =>
  if e.parent_id == d.id && e.parent_id.isSome then
    {e with category := d.category} else e

theorem cleanIsLocalizable_ok_value {w : World} {d d1 : Document}
    (hloc : d.is_localizable = false)
    (h : cleanIsLocalizable w d = Except.ok d1) : d1 = d := by
  have hfix : ({d with is_localizable := false} : Document) = d := by
    obtain ⟨a1, a2, a3, a4, a5, a6, a7, a8, a9, a10, a11, a12, a13, a14,
      a15⟩ := d
    simp only at hloc
    subst hloc
    rfl
  simp only [cleanIsLocalizable, hfix, ite_self] at h
  repeat' split at h
  all_goals try cases h
  all_goals rfl

theorem ensureInheritedArchived_root {w : World} {d : Document}
    (hpar : d.parent_id = none) (hidt : idTruthy d.id = true) :
    ensureInheritedArchived w d =
      Except.ok ({w with documents := w.documents.map (archUpd d)}, d) := by
  simp only [ensureInheritedArchived, hpar, hidt, if_true]
  rfl

theorem ensureInheritedCategory_root {w : World} {d : Document}
    (hpar : d.parent_id = none) (hidt : idTruthy d.id = true) :
    ensureInheritedCategory w d =
      Except.ok ({w with documents := w.documents.map (catUpd d)}, d) := by
  simp only [ensureInheritedCategory, hpar, hidt, if_true]
  rfl

theorem cleanCategory_root {w : World} {d : Document}
    (hpar : d.parent_id = none) (hidt : idTruthy d.id = true)
    (hcat : CATEGORIES.contains d.category = true) :
    cleanCategory w d =
      Except.ok ({w with documents := w.documents.map (catUpd d)}, d) := by
  have hguard : (d.parent_id == none && !(CATEGORIES.contains d.category)) =
      false := by
    rw [hcat]; simp
  rw [cleanCategory, hguard]
  simp only [Bool.false_eq_true, if_false]
  exact ensureInheritedCategory_root hpar hidt

theorem cleanCategory_root_bad {w : World} {d : Document}
    (hpar : d.parent_id = none)
    (hcat : CATEGORIES.contains d.category = false) :
    cleanCategory w d = Except.error SaveError.validation := by
  have hguard : (d.parent_id == none && !(CATEGORIES.contains d.category)) =
      true := by
    rw [hcat, hpar]; simp
  rw [cleanCategory, hguard]
  simp

theorem validateAndClean_rootfalse_ok {w : World} {d : Document} {i : Nat}
    {w1 : World} {d1 : Document}
    (hid : d.id = some i) (hi0 : i ≠ 0) (hpar : d.parent_id = none)
    (ht : d.old_title = none) (hs : d.old_slug = none)
    (hloc : d.is_localizable = false)
    (h : validateAndClean w d = Except.ok (w1, d1)) :
    d1 = {d with is_template := d.title.startsWith TEMPLATE_TITLE_START} ∧
    CATEGORIES.contains d.category = true ∧
    w1 = {w with documents :=
      (w.documents.map (archUpd d)).map (catUpd d)} := by
  have hidt : idTruthy d.id = true := by
    rw [hid]
    simp only [idTruthy, bne_iff_ne, ne_eq]
    exact hi0
  simp only [validateAndClean] at h
  set D := ({d with is_template := d.title.startsWith TEMPLATE_TITLE_START} : Document) with hD
  have hDpar : D.parent_id = none := hpar
  have hDidt : idTruthy D.id = true := hidt
  have hDloc : D.is_localizable = false := hloc
  have hg1 : raiseIfCollides w D Attr.slug = false := by
    rw [hD]
    simp [raiseIfCollides, oldAttr, hid, hs]
  have hg2 : raiseIfCollides w D Attr.title = false := by
    rw [hD]
    simp [raiseIfCollides, oldAttr, hid, ht]
  rw [hg1, hg2] at h
  simp only [Bool.false_eq_true, if_false] at h
  cases hcil : cleanIsLocalizable w D with
  | error e => simp only [hcil] at h; cases h
  | ok d1' =>
    have hd1' : d1' = D := cleanIsLocalizable_ok_value hDloc hcil
    subst hd1'
    simp only [hcil] at h
    simp only [ensureInheritedArchived_root hDpar hDidt] at h
    by_cases hcat : CATEGORIES.contains d.category = true
    · have hDcat : CATEGORIES.contains D.category = true := hcat
      simp only [cleanCategory_root hDpar hDidt hDcat] at h
      simp only [Except.ok.injEq, Prod.mk.injEq] at h
      obtain ⟨hw, hdq⟩ := h
      have h1 : D.id = d.id := by rw [hD]
      have h2 : D.is_archived = d.is_archived := by rw [hD]
      have h3 : D.category = d.category := by rw [hD]
      have harch : archUpd D = archUpd d := by unfold archUpd; rw [h1, h2]
      have hcatf : catUpd D = catUpd d := by unfold catUpd; rw [h1, h3]
      rw [harch, hcatf] at hw
      exact ⟨hdq.symm, hcat, hw.symm⟩
    · rw [Bool.not_eq_true] at hcat
      have hDcat : CATEGORIES.contains D.category = false := hcat
      simp only [cleanCategory_root_bad hDpar hDcat] at h
      exact Except.noConfusion h

theorem archUpd_core (dm x : Document) : sameRowCore (archUpd dm x) x := by
  unfold archUpd
  split
  · exact ⟨rfl, rfl, rfl, rfl, rfl, rfl, rfl, rfl, rfl, rfl⟩
  · exact sameRowCore_refl x

theorem catUpd_core (dm x : Document) : sameRowCore (catUpd dm x) x := by
  unfold catUpd
  split
  · exact ⟨rfl, rfl, rfl, rfl, rfl, rfl, rfl, rfl, rfl, rfl⟩
  · exact sameRowCore_refl x

theorem archUpd_cat (dm x : Document) :
    (archUpd dm x).category = x.category := by
  unfold archUpd
  split <;> rfl

theorem catUpd_arch (dm x : Document) :
    (catUpd dm x).is_archived = x.is_archived := by
  unfold catUpd
  split <;> rfl

theorem archUpd_arch_hit {dm x : Document} {i : Nat} (hdm : dm.id = some i)
    (hx : x.parent_id = some i) :
    (archUpd dm x).is_archived = dm.is_archived := by
  have hc : (x.parent_id == dm.id && x.parent_id.isSome) = true := by
    rw [hx, hdm]
    simp
  simp only [archUpd, hc, if_true]

theorem catUpd_cat_hit {dm x : Document} {i : Nat} (hdm : dm.id = some i)
    (hx : x.parent_id = some i) :
    (catUpd dm x).category = dm.category := by
  have hc : (x.parent_id == dm.id && x.parent_id.isSome) = true := by
    rw [hx, hdm]
    simp
  simp only [catUpd, hc, if_true]

theorem cleanIsLocalizable_flags {w : World} {d d1 : Document}
    (h : cleanIsLocalizable w d = Except.ok d1) :
    d1.is_archived = d.is_archived ∧ d1.category = d.category ∧
    d1.contributors = d.contributors ∧ d1.is_template = d.is_template := by
  simp only [cleanIsLocalizable] at h
  repeat' split at h
  all_goals try cases h
  all_goals exact ⟨rfl, rfl, rfl, rfl⟩

theorem validateAndClean_translation {w : World} {d : Document} {p : Nat}
    {par : Document} {w1 : World} {d1 : Document}
    (hpar : d.parent_id = some p) (hpw : getDocument w p = some par)
    (h : validateAndClean w d = Except.ok (w1, d1)) :
    w1 = w ∧ d1.category = par.category ∧ d1.is_archived = par.is_archived := by
  simp only [validateAndClean] at h
  set D := ({d with is_template := d.title.startsWith TEMPLATE_TITLE_START} : Document) with hD
  split at h
  · cases h
  split at h
  · cases h
  cases hcil : cleanIsLocalizable w D with
  | error e => simp only [hcil] at h; cases h
  | ok d1' =>
    simp only [hcil] at h
    obtain ⟨-, -, -, -, -, -, -, hp8, -, -⟩ := cleanIsLocalizable_core hcil
    have hp1 : d1'.parent_id = some p := by
      rw [hp8]
      exact hpar
    simp only [ensureInheritedArchived, hp1, hpw] at h
    simp only [cleanCategory] at h
    have hg : (some p == none && !(CATEGORIES.contains d1'.category)) =
        false := by
      simp
    simp only [hg, Bool.false_eq_true, if_false] at h
    simp only [ensureInheritedCategory, hpw] at h
    cases h
    exact ⟨rfl, rfl, rfl⟩

/-- A root document's save-time validation keeps the instance's own
`category`/`is_archived` and pushes exactly those values onto every stored
row whose `parent` is the document. -/
theorem validateAndClean_root_run {w : World} {d : Document} {i : Nat}
    {w1 : World} {d1 : Document}
    (hid : d.id = some i) (hi0 : i ≠ 0) (hpar : d.parent_id = none)
    (h : validateAndClean w d = Except.ok (w1, d1)) :
    d1.category = d.category ∧ d1.is_archived = d.is_archived ∧
    d1.parent_id = none ∧ d1.id = some i ∧
    w1.revisions = w.revisions ∧
    ∀ e ∈ w1.documents, e.parent_id = some i →
      e.is_archived = d.is_archived ∧ e.category = d.category := by
  simp only [validateAndClean] at h
  set D := ({d with is_template := d.title.startsWith TEMPLATE_TITLE_START} : Document) with hD
  split at h
  · cases h
  split at h
  · cases h
  cases hcil : cleanIsLocalizable w D with
  | error e => simp only [hcil] at h; cases h
  | ok d1' =>
    simp only [hcil] at h
    obtain ⟨hid8, -, -, -, -, -, -, hp8, -, -⟩ := cleanIsLocalizable_core hcil
    obtain ⟨harch8, hcat8, -, -⟩ := cleanIsLocalizable_flags hcil
    have hDid : D.id = d.id := by rw [hD]
    have hDpar : D.parent_id = d.parent_id := by rw [hD]
    have hDarch : D.is_archived = d.is_archived := by rw [hD]
    have hDcat : D.category = d.category := by rw [hD]
    have hp1 : d1'.parent_id = none := by rw [hp8, hDpar, hpar]
    have hid1 : d1'.id = some i := by rw [hid8, hDid, hid]
    have harch1 : d1'.is_archived = d.is_archived := by rw [harch8, hDarch]
    have hcat1 : d1'.category = d.category := by rw [hcat8, hDcat]
    have hidt1 : idTruthy d1'.id = true := by
      rw [hid1]
      simp only [idTruthy, bne_iff_ne, ne_eq]
      exact hi0
    simp only [ensureInheritedArchived_root hp1 hidt1] at h
    by_cases hct : CATEGORIES.contains d1'.category = true
    · simp only [cleanCategory_root hp1 hidt1 hct] at h
      simp only [Except.ok.injEq, Prod.mk.injEq] at h
      obtain ⟨hw, hd⟩ := h
      subst hd
      refine ⟨hcat1, harch1, hp1, hid1, ?_, ?_⟩
      · rw [← hw]
      · intro e he hep
        rw [← hw] at he
        obtain ⟨y, hy, rfl⟩ := List.mem_map.mp he
        obtain ⟨x, hx, rfl⟩ := List.mem_map.mp hy
        obtain ⟨-, -, -, -, -, -, -, hyp8, -, -⟩ := catUpd_core d1' (archUpd d1' x)
        obtain ⟨-, -, -, -, -, -, -, hxp8, -, -⟩ := archUpd_core d1' x
        have hxp : x.parent_id = some i := by
          rw [← hxp8, ← hyp8]
          exact hep
        have hyp : (archUpd d1' x).parent_id = some i := by
          rw [hxp8]
          exact hxp
        constructor
        · rw [catUpd_arch, archUpd_arch_hit hid1 hxp, harch1]
        · rw [catUpd_cat_hit hid1 hyp, hcat1]
    · rw [Bool.not_eq_true] at hct
      simp only [cleanCategory_root_bad hp1 hct] at h
      exact Except.noConfusion h

theorem stripOld_parent (d : Document) :
    (stripOld d).parent_id = d.parent_id := rfl

theorem stripOld_category (d : Document) :
    (stripOld d).category = d.category := rfl

theorem stripOld_archived (d : Document) :
    (stripOld d).is_archived = d.is_archived := rfl

def c6root : Document :=
  { id := some 1, title := "Root", slug := "root", locale := "en-US",
    is_template := false, is_localizable := true,
    current_revision_id := none, latest_localizable_revision_id := none,
    parent_id := none, html := "", category := 10, is_archived := true,
    contributors := [], old_title := none, old_slug := none }

def c6tr : Document :=
  { id := some 2, title := "Racine", slug := "racine", locale := "fr",
    is_template := false, is_localizable := false,
    current_revision_id := none, latest_localizable_revision_id := none,
    parent_id := some 1, html := "", category := 20, is_archived := false,
    contributors := [], old_title := none, old_slug := none }

def c6w : World := { documents := [c6root, c6tr], revisions := [] }

def c6tr' : Document := {c6tr with is_archived := true, category := 10}

def c6w' : World := { documents := [c6root, c6tr'], revisions := [] }

theorem ensureInheritedArchived_nonid {w : World} {d : Document}
    (hpar : d.parent_id = none) (hidf : idTruthy d.id = false) :
    ensureInheritedArchived w d = Except.ok (w, d) := by
  simp only [ensureInheritedArchived, hpar, hidf, Bool.false_eq_true,
    if_false]

theorem ensureInheritedCategory_nonid {w : World} {d : Document}
    (hpar : d.parent_id = none) (hidf : idTruthy d.id = false) :
    ensureInheritedCategory w d = Except.ok (w, d) := by
  simp only [ensureInheritedCategory, hpar, hidf, Bool.false_eq_true,
    if_false]

theorem cleanCategory_nonid {w : World} {d : Document}
    (hpar : d.parent_id = none) (hidf : idTruthy d.id = false)
    (hcat : CATEGORIES.contains d.category = true) :
    cleanCategory w d = Except.ok (w, d) := by
  have hguard : (d.parent_id == none && !(CATEGORIES.contains d.category)) =
      false := by
    rw [hcat]
    simp
  rw [cleanCategory, hguard]
  simp only [Bool.false_eq_true, if_false]
  exact ensureInheritedCategory_nonid hpar hidf

theorem persistDocument_none {w : World} {d : Document} (h : d.id = none) :
    persistDocument w d =
      ({w with documents :=
        w.documents ++ [stripOld {d with id := some (nextDocId w)}]},
       {d with id := some (nextDocId w)}) := by
  simp only [persistDocument, h]

theorem persistDocument_inplace {w : World} {d : Document} {i : Nat}
    (hid : d.id = some i)
    (hany : (w.documents.any (fun e => e.id == some i)) = true) :
    persistDocument w d =
      ({w with documents := w.documents.map (fun e =>
        if e.id == some i then stripOld d else e)}, d) := by
  simp only [persistDocument, hid, hany, if_true]

/-- Saving a brand-new root document (`id = None`): the validation pass
leaves the world untouched, only recomputes `is_template`, and its success
certifies the category check and both collision checks (which always run
for an unsaved document). -/
theorem validateAndClean_newdoc_run {w : World} {nd : Document}
    {w1 : World} {d1 : Document}
    (hidn : nd.id = none) (hpar : nd.parent_id = none)
    (hloc : nd.is_localizable = false)
    (h : validateAndClean w nd = Except.ok (w1, d1)) :
    w1 = w ∧
    d1 = {nd with is_template := nd.title.startsWith TEMPLATE_TITLE_START} ∧
    CATEGORIES.contains nd.category = true ∧
    collides w nd Attr.title nd.title = false ∧
    collides w nd Attr.slug nd.slug = false := by
  simp only [validateAndClean] at h
  set D := ({nd with is_template := nd.title.startsWith TEMPLATE_TITLE_START} : Document) with hD
  have hDid : D.id = none := hidn
  have hDpar : D.parent_id = none := hpar
  have hDloc : D.is_localizable = false := hloc
  have hre1 : raiseIfCollides w D Attr.slug = collides w nd Attr.slug nd.slug := by
    rw [hD]
    simp [raiseIfCollides, oldAttr, attrGet, collides, hidn]
  have hre2 : raiseIfCollides w D Attr.title = collides w nd Attr.title nd.title := by
    rw [hD]
    simp [raiseIfCollides, oldAttr, attrGet, collides, hidn]
  split at h
  · cases h
  split at h
  · cases h
  next hg1 hg2 =>
  rw [Bool.not_eq_true, hre1] at hg1
  rw [Bool.not_eq_true, hre2] at hg2
  cases hcil : cleanIsLocalizable w D with
  | error e => simp only [hcil] at h; cases h
  | ok d1' =>
    have hd1' : d1' = D := cleanIsLocalizable_ok_value hDloc hcil
    subst hd1'
    simp only [hcil] at h
    have hidf : idTruthy D.id = false := by
      rw [hDid]
      rfl
    simp only [ensureInheritedArchived_nonid hDpar hidf] at h
    by_cases hct : CATEGORIES.contains D.category = true
    · simp only [cleanCategory_nonid hDpar hidf hct] at h
      simp only [Except.ok.injEq, Prod.mk.injEq] at h
      obtain ⟨hw, hd⟩ := h
      have hctn : CATEGORIES.contains nd.category = true := hct
      refine ⟨hw.symm, ?_, hctn, hg2, hg1⟩
      rw [← hd, hD]
    · rw [Bool.not_eq_true] at hct
      have hguard : (D.parent_id == none &&
          !(CATEGORIES.contains D.category)) = true := by
        rw [hDpar, hct]
        simp
      rw [cleanCategory, hguard] at h
      simp only [if_true] at h
      cases h

theorem catUpd_archUpd_id (a b x : Document) :
    (catUpd a (archUpd b x)).id = x.id := by
  rw [(catUpd_core a (archUpd b x)).1, (archUpd_core b x).1]

theorem catUpd_archUpd_title (a b x : Document) :
    (catUpd a (archUpd b x)).title = x.title := by
  rw [(catUpd_core a (archUpd b x)).2.1, (archUpd_core b x).2.1]

theorem catUpd_archUpd_slug (a b x : Document) :
    (catUpd a (archUpd b x)).slug = x.slug := by
  rw [(catUpd_core a (archUpd b x)).2.2.1, (archUpd_core b x).2.2.1]

theorem catUpd_archUpd_locale (a b x : Document) :
    (catUpd a (archUpd b x)).locale = x.locale := by
  rw [(catUpd_core a (archUpd b x)).2.2.2.1, (archUpd_core b x).2.2.2.1]

theorem replace_id {q rep : Document} {i : Nat} (hrep : rep.id = some i) :
    (if q.id == some i then rep else q).id = q.id := by
  by_cases h : (q.id == some i) = true
  · rw [if_pos h, hrep]
    rw [beq_iff_eq] at h
    rw [h]
  · rw [if_neg h]

theorem archUpd_miss {dm x : Document} {i : Nat} (hdm : dm.id = some i)
    (hx : x.parent_id ≠ some i) : archUpd dm x = x := by
  have hb : (x.parent_id == some i) = false := beq_eq_false_iff_ne.mpr hx
  have hc : (x.parent_id == dm.id && x.parent_id.isSome) = false := by
    rw [hdm, hb]
    simp
  simp only [archUpd, hc, Bool.false_eq_true, if_false]

theorem catUpd_miss {dm x : Document} {i : Nat} (hdm : dm.id = some i)
    (hx : x.parent_id ≠ some i) : catUpd dm x = x := by
  have hb : (x.parent_id == some i) = false := beq_eq_false_iff_ne.mpr hx
  have hc : (x.parent_id == dm.id && x.parent_id.isSome) = false := by
    rw [hdm, hb]
    simp
  simp only [catUpd, hc, Bool.false_eq_true, if_false]

theorem catUpd_archUpd_parent (a b x : Document) :
    (catUpd a (archUpd b x)).parent_id = x.parent_id := by
  rw [(catUpd_core a (archUpd b x)).2.2.2.2.2.2.2.1,
    (archUpd_core b x).2.2.2.2.2.2.2.1]

theorem find?_id_map_pres {l : List Document} {j : Nat} {x : Document}
    {F : Document → Document} (hF : ∀ e, (F e).id = e.id)
    (h : l.find? (fun e => e.id == some j) = some x) :
    (l.map F).find? (fun e => e.id == some j) = some (F x) := by
  rw [List.find?_map]
  have hfn : ((fun e => e.id == some j) ∘ F) =
      (fun e => e.id == some j) := by
    funext e
    simp [Function.comp, hF]
  rw [hfn, h]
  rfl

theorem find?_append_left {l₁ l₂ : List Document} {p : Document → Bool}
    {x : Document} (h : l₁.find? p = some x) :
    (l₁ ++ l₂).find? p = some x := by
  induction l₁ with
  | nil => cases h
  | cons a as ih =>
    by_cases ha : p a = true
    · simp only [List.find?, ha] at h ⊢
      exact h
    · simp only [Bool.not_eq_true] at ha
      simp only [List.cons_append, List.find?, ha] at h ⊢
      exact ih h

theorem persistDocument_pres_ids (w : World) (d : Document) {j : Nat}
    (h : w.documents.any (fun e => e.id == some j) = true) :
    (persistDocument w d).1.documents.any (fun e => e.id == some j) =
      true := by
  obtain ⟨x, hx, hpx⟩ := List.any_eq_true.mp h
  cases hid : d.id with
  | none =>
    simp only [persistDocument, hid]
    exact List.any_eq_true.mpr ⟨x, List.mem_append_left _ hx, hpx⟩
  | some i0 =>
    by_cases hany : (w.documents.any (fun e => e.id == some i0)) = true
    · simp only [persistDocument, hid, hany, if_true]
      apply List.any_eq_true.mpr
      refine ⟨(if x.id == some i0 then stripOld d else x),
        List.mem_map_of_mem _ hx, ?_⟩
      rw [replace_id (show (stripOld d).id = some i0 from hid)]
      exact hpx
    · rw [Bool.not_eq_true] at hany
      simp only [persistDocument, hid, hany, Bool.false_eq_true, if_false]
      exact List.any_eq_true.mpr ⟨x, List.mem_append_left _ hx, hpx⟩

/-- The shape of every completed `Document.save`: validate-and-clean, the
row write, and then either no redirect (no current revision or no tracked
change) or the redirect tail. -/
theorem documentSave_run {fuel : Nat} {render : String → String} {w : World}
    {d : Document} {w' : World} {d' : Document}
    (h : documentSave fuel render w d = Except.ok (w', d')) :
    ∃ w1 d1 w2 d2, validateAndClean w d = Except.ok (w1, d1) ∧
      persistDocument w1 d1 = (w2, d2) ∧
      (((w2, d2) = (w', d') ∧ (d2.current_revision_id.isSome &&
          (d2.old_slug.isSome || d2.old_title.isSome)) = false) ∨
        ((d2.current_revision_id.isSome &&
          (d2.old_slug.isSome || d2.old_title.isSome)) = true ∧
          ∃ fz, makeRedirect fz render w2 d2 = Except.ok (w', d'))) := by
  cases fuel with
  | zero => simp [documentSave] at h
  | succ f =>
  simp only [documentSave] at h
  cases hvc : validateAndClean w d with
  | error e => simp only [hvc] at h; cases h
  | ok p1 =>
  obtain ⟨w1, d1⟩ := p1
  simp only [hvc] at h
  cases hpd : persistDocument w1 d1 with
  | mk w2 d2 =>
  rw [hpd] at h
  by_cases hg : (d2.current_revision_id.isSome &&
      (d2.old_slug.isSome || d2.old_title.isSome)) = true
  · rw [if_pos hg] at h
    exact ⟨w1, d1, w2, d2, rfl, hpd, Or.inr ⟨hg, f, h⟩⟩
  · rw [if_neg hg] at h
    cases h
    rw [Bool.not_eq_true] at hg
    exact ⟨w1, d1, w2, d2, rfl, hpd, Or.inl ⟨rfl, hg⟩⟩

theorem makeRedirect_getRevision {fuel : Nat} {render : String → String}
    {w2 : World} {d2 : Document} {w' : World} {d' : Document} {c : Nat}
    (hcur : d2.current_revision_id = some c)
    (h : makeRedirect fuel render w2 d2 = Except.ok (w', d')) :
    ∃ cr, getRevision w2 c = some cr := by
  cases fuel with
  | zero => simp [makeRedirect] at h
  | succ fz =>
  simp only [makeRedirect, hcur] at h
  cases hgr : getRevision w2 c with
  | none => simp only [hgr] at h; cases h
  | some cr => exact ⟨cr, rfl⟩

theorem nextDocId_ne_zero (w : World) : nextDocId w ≠ 0 := by
  simp [nextDocId]

/-- The redirect tail of `Document.save`, run to completion: the tracked
old values are deleted from the instance, exactly one document (the
redirect) and exactly one revision (its pre-approved content) are added,
and the redirect row carries the saving document's locale and category,
`is_localizable = false`, a title and slug no stored same-locale document
carried at creation time, and the new revision as current. -/
theorem makeRedirect_run {fuel : Nat} {render : String → String} {w2 : World}
    {d2 : Document} {w' : World} {d' : Document} {c : Nat} {cr : Revision}
    (hcur : d2.current_revision_id = some c)
    (hcr : getRevision w2 c = some cr)
    (h : makeRedirect fuel render w2 d2 = Except.ok (w', d')) :
    d' = {d2 with old_slug := none, old_title := none} ∧
    ∃ rv row,
      w'.revisions = w2.revisions ++ [rv] ∧
      rv.document_id = nextDocId w2 ∧
      rv.is_approved = true ∧ rv.reviewed_set = false ∧
      rv.content = REDIRECT_CONTENT d2.title ∧
      rv.creator = cr.creator ∧ rv.reviewer = some cr.creator ∧
      rv.based_on_id = none ∧
      w'.documents.length = w2.documents.length + 1 ∧
      (∀ e ∈ w2.documents, e.id ≠ some (nextDocId w2)) ∧
      getDocument w' (nextDocId w2) = some row ∧
      row.locale = d2.locale ∧ row.is_localizable = false ∧
      row.category = d2.category ∧
      row.current_revision_id = some rv.id ∧ row.parent_id = none ∧
      (∀ e ∈ w2.documents, e.locale = d2.locale →
        e.title ≠ row.title ∧ e.slug ≠ row.slug) ∧
      (∀ e ∈ w'.documents,
        (e.id = some (nextDocId w2) ∧ e.parent_id = none) ∨
        ∃ x ∈ w2.documents, x.id = e.id ∧ x.title = e.title ∧
          x.slug = e.slug ∧ x.locale = e.locale ∧
          x.parent_id = e.parent_id ∧
          (x.parent_id ≠ some (nextDocId w2) →
            x.category = e.category ∧ x.is_archived = e.is_archived)) ∧
      (∀ j, w2.documents.any (fun e => e.id == some j) = true →
        w'.documents.any (fun e => e.id == some j) = true) ∧
      (∀ j x, getDocument w2 j = some x → j ≠ nextDocId w2 →
        x.parent_id ≠ some (nextDocId w2) → getDocument w' j = some x) := by
  cases fuel with
  | zero => simp [makeRedirect] at h
  | succ fz =>
  simp only [makeRedirect, hcur, hcr] at h
  cases hat : attrForRedirect w2 d2 Attr.title REDIRECT_TITLE with
  | none => simp only [hat] at h; cases h
  | some rt =>
  simp only [hat] at h
  cases has : attrForRedirect w2 d2 Attr.slug REDIRECT_SLUG with
  | none => simp only [has] at h; cases h
  | some rs =>
  simp only [has] at h
  cases fz with
  | zero => simp [documentCreate] at h
  | succ f3 =>
  simp only [documentCreate] at h
  cases hds3 : documentSave f3 render w2
      (newDocument rt rs d2.locale d2.category) with
  | error e => simp only [hds3] at h; cases h
  | ok p3 =>
  obtain ⟨w3, rd⟩ := p3
  simp only [hds3] at h
  obtain ⟨wv, dv, hvc2, hpd3⟩ := documentSave_simple rfl rfl hds3
  obtain ⟨hwv, hdv, hcats, hcolT, hcolS⟩ :=
    validateAndClean_newdoc_run rfl rfl rfl hvc2
  rw [hwv] at hpd3 hvc2
  subst hdv
  set nD := newDocument rt rs d2.locale d2.category with hnD
  set ndv := ({nD with is_template := nD.title.startsWith TEMPLATE_TITLE_START} : Document) with hndv
  have hdvid : ndv.id = none := rfl
  rw [persistDocument_none hdvid] at hpd3
  have hw3 : w3 = {w2 with documents :=
      w2.documents ++ [stripOld {ndv with id := some (nextDocId w2)}]} :=
    (congrArg Prod.fst hpd3).symm
  have hrd : rd = {ndv with id := some (nextDocId w2)} :=
    (congrArg Prod.snd hpd3).symm
  set rdRow := stripOld {ndv with id := some (nextDocId w2)} with hrdRow
  simp only [revisionCreate] at h
  cases f3 with
  | zero => simp [revisionSave] at h
  | succ f4 =>
  simp only [revisionSave] at h
  set rv := newRevision w3 rd (REDIRECT_CONTENT d2.title) cr.creator with hrv
  have hrdid : rd.id = some (nextDocId w2) := by rw [hrd]
  have hrvdoc : rv.document_id = nextDocId w2 := by
    rw [hrv]
    simp only [newRevision]
    rw [hrdid]
    rfl
  have hrvbo : rv.based_on_id = none := rfl
  have hrvappr : rv.is_approved = true := rfl
  have hrvrf : rv.is_ready_for_localization = false := rfl
  have hrowid : rdRow.id = some (nextDocId w2) := rfl
  have hrowpar : rdRow.parent_id = none := rfl
  have hrowcur : rdRow.current_revision_id = none := rfl
  have hfresh : ∀ e ∈ w2.documents, (e.id == some (nextDocId w2)) = false := by
    intro e he
    have := nextDocId_fresh he
    simpa using this
  have hgd3 : getDocument w3 (nextDocId w2) = some rdRow := by
    rw [hw3]
    simp only [getDocument]
    exact find?_id_append_fresh hrowid hfresh
  have hboc : basedOnIsClean w3 rv = Except.ok (none, true) := by
    simp only [basedOnIsClean, hrvdoc, hgd3, originalOf, hrowpar, hrvbo]
  simp only [hboc] at h
  have hanyr : (w3.revisions.any (fun x => x.id == rv.id)) = false := by
    rw [Bool.eq_false_iff]
    intro hc
    obtain ⟨x, hx, hpx⟩ := List.any_eq_true.mp hc
    rw [beq_iff_eq] at hpx
    exact nextRevId_fresh hx hpx
  have hpr : persistRevision w3 rv = {w3 with revisions := w3.revisions ++ [rv]} := by
    simp only [persistRevision, hanyr, Bool.false_eq_true, if_false]
  simp only [hpr] at h
  have hgd4 : getDocument {w3 with revisions := w3.revisions ++ [rv]} rv.document_id = some rdRow := by
    rw [getDocument_setRevisions, hrvdoc]
    exact hgd3
  simp only [hgd4, hrvappr, if_true, hrowcur] at h
  cases hau : approvedUpdate f4 render {w3 with revisions := w3.revisions ++ [rv]} rv rdRow with
  | error e => simp only [hau] at h; cases h
  | ok p5 =>
  obtain ⟨w5, rvy⟩ := p5
  simp only [hau] at h
  simp only [Except.ok.injEq, Prod.mk.injEq] at h
  obtain ⟨hw5, hd'⟩ := h
  cases f4 with
  | zero => simp [approvedUpdate] at hau
  | succ f5 =>
  simp only [approvedUpdate, hrvrf, Bool.false_eq_true, if_false] at hau
  split at hau
  · cases hau
  rename_i w6 dxx heq5
  simp only [Except.ok.injEq, Prod.mk.injEq] at hau
  obtain ⟨hw6, -⟩ := hau
  set D3 := ({rdRow with contributors := updateContributors {w3 with revisions := w3.revisions ++ [rv]} rdRow, html := render rv.content, current_revision_id := some rv.id} : Document) with hD3
  obtain ⟨wv5, dv5, hvc5, hpd5⟩ := documentSave_simple rfl rfl heq5
  obtain ⟨hdv5, hcats5, hwv5⟩ := validateAndClean_rootfalse_ok rfl
    (nextDocId_ne_zero w2) rfl rfl rfl rfl hvc5
  have hdv5id : dv5.id = some (nextDocId w2) := by
    rw [hdv5]
    rfl
  have hstripid : (stripOld dv5).id = some (nextDocId w2) := hdv5id
  have hmem3 : rdRow ∈ w3.documents := by
    rw [hw3]
    exact List.mem_append_right _ (List.mem_singleton_self _)
  have hany5 : (wv5.documents.any (fun e =>
      e.id == some (nextDocId w2))) = true := by
    rw [hwv5]
    apply List.any_eq_true.mpr
    refine ⟨_, List.mem_map_of_mem _ (List.mem_map_of_mem _ hmem3), ?_⟩
    rw [beq_iff_eq, catUpd_archUpd_id]
    exact hrowid
  rw [persistDocument_inplace hdv5id hany5] at hpd5
  have hw6e : w6 = {wv5 with documents := wv5.documents.map (fun e =>
      if e.id == some (nextDocId w2) then stripOld dv5 else e)} :=
    (congrArg Prod.fst hpd5).symm
  subst hd'
  have hwfin : w' = w6 := (hw6.trans hw5).symm
  subst hwfin
  have hD3id : D3.id = some (nextDocId w2) := rfl
  refine ⟨?_, rv, stripOld dv5, ?_, hrvdoc, hrvappr, rfl, rfl, rfl, rfl,
    hrvbo, ?_, ?_, ?_, ?_, ?_, ?_, ?_, ?_, ?_, ?_, ?_, ?_⟩
  · rw [← hcur]
  · simp only [hw6e, hwv5, hw3]
  · simp only [hw6e, hwv5, hw3, List.length_map, List.length_append,
      List.length_singleton]
  · intro e he
    exact nextDocId_fresh he
  · rw [hw6e]
    simp only [getDocument]
    exact find?_id_replace hstripid hany5
  · rw [hdv5]
    rfl
  · rw [hdv5]
    rfl
  · rw [hdv5]
    rfl
  · rw [hdv5]
    rfl
  · rw [hdv5]
    rfl
  · intro e he hel
    have hallT : ∀ x ∈ w2.documents,
        (x.locale == nD.locale && attrGet x Attr.title == nD.title) = false :=
      any_eq_false_forall hcolT
    have hallS : ∀ x ∈ w2.documents,
        (x.locale == nD.locale && attrGet x Attr.slug == nD.slug) = false :=
      any_eq_false_forall hcolS
    have hlocT : (e.locale == nD.locale) = true := by
      rw [hel]
      exact beq_self_eq_true d2.locale
    have h1 := hallT e he
    have h2 := hallS e he
    rw [hlocT, Bool.true_and] at h1 h2
    have h1' : (e.title == rt) = false := h1
    have h2' : (e.slug == rs) = false := h2
    have hrT : (stripOld dv5).title = rt := by
      rw [hdv5]
      rfl
    have hrS : (stripOld dv5).slug = rs := by
      rw [hdv5]
      rfl
    constructor
    · rw [hrT]
      exact beq_eq_false_iff_ne.mp h1'
    · rw [hrS]
      exact beq_eq_false_iff_ne.mp h2'
  · intro e he
    simp only [hw6e, hwv5, hw3] at he
    obtain ⟨y, hy, rfl⟩ := List.mem_map.mp he
    obtain ⟨z, hz, rfl⟩ := List.mem_map.mp hy
    obtain ⟨x0, hx0, rfl⟩ := List.mem_map.mp hz
    rcases List.mem_append.mp hx0 with hxw | hxr
    · right
      have hcf : ((catUpd D3 (archUpd D3 x0)).id ==
          some (nextDocId w2)) = false := by
        rw [catUpd_archUpd_id]
        exact beq_eq_false_iff_ne.mpr (nextDocId_fresh hxw)
      have he2 : (if (catUpd D3 (archUpd D3 x0)).id == some (nextDocId w2)
          then stripOld dv5 else catUpd D3 (archUpd D3 x0)) =
          catUpd D3 (archUpd D3 x0) := by
        rw [hcf]
        simp
      rw [he2]
      refine ⟨x0, hxw, ?_, ?_, ?_, ?_, ?_, ?_⟩
      · rw [catUpd_archUpd_id]
      · rw [catUpd_archUpd_title]
      · rw [catUpd_archUpd_slug]
      · rw [catUpd_archUpd_locale]
      · rw [catUpd_archUpd_parent]
      · intro hnp
        rw [archUpd_miss hD3id hnp, catUpd_miss hD3id hnp]
        exact ⟨rfl, rfl⟩
    · left
      rw [List.mem_singleton] at hxr
      subst hxr
      have hcondT : ((catUpd D3 (archUpd D3 rdRow)).id ==
          some (nextDocId w2)) = true := by
        rw [catUpd_archUpd_id, hrowid]
        simp
      constructor
      · rw [replace_id hstripid, catUpd_archUpd_id]
        exact hrowid
      · rw [if_pos hcondT, hdv5]
        rfl
  · intro j hj
    obtain ⟨x, hx, hpx⟩ := List.any_eq_true.mp hj
    apply List.any_eq_true.mpr
    refine ⟨(if (catUpd D3 (archUpd D3 x)).id == some (nextDocId w2)
      then stripOld dv5 else catUpd D3 (archUpd D3 x)), ?_, ?_⟩
    · simp only [hw6e, hwv5, hw3]
      exact List.mem_map_of_mem _ (List.mem_map_of_mem _
        (List.mem_map_of_mem _ (List.mem_append_left _ hx)))
    · rw [replace_id hstripid, catUpd_archUpd_id]
      exact hpx
  · intro j x hgx hjne hpne
    have hxid : x.id = some j := getDocument_id hgx
    have h3 : w3.documents.find? (fun e => e.id == some j) = some x := by
      rw [hw3]
      exact find?_append_left hgx
    have h4 : ((w3.documents.map (archUpd D3)).find?
        (fun e => e.id == some j)) = some (archUpd D3 x) :=
      find?_id_map_pres (fun e => (archUpd_core D3 e).1) h3
    have h5 : (((w3.documents.map (archUpd D3)).map (catUpd D3)).find?
        (fun e => e.id == some j)) = some (catUpd D3 (archUpd D3 x)) :=
      find?_id_map_pres (fun e => (catUpd_core D3 e).1) h4
    have hcomp : catUpd D3 (archUpd D3 x) = x := by
      rw [archUpd_miss hD3id hpne, catUpd_miss hD3id hpne]
    rw [hcomp] at h5
    have h6 := find?_id_map_pres (fun e => replace_id hstripid) h5
    have hb : (x.id == some (nextDocId w2)) = false := by
      rw [hxid]
      exact beq_eq_false_iff_ne.mpr (fun hc => hjne (by injection hc))
    have hxrep : (if x.id == some (nextDocId w2) then stripOld dv5
        else x) = x := by
      rw [hb]
      simp
    rw [hxrep] at h6
    have hwv5d : wv5.documents =
        (w3.documents.map (archUpd D3)).map (catUpd D3) := by
      rw [hwv5]
    rw [hw6e]
    simp only [getDocument]
    rw [hwv5d]
    exact h6
/-- C2: a completed `Document.save` on any stored document with an
(approved) current revision and a tracked title/slug change deletes the
tracked old values from the instance, creates exactly one new document (the
redirect, in the saved document's locale, non-localizable, with the saved
document's category — for a translation that is the parent's category,
which `_clean_category` writes onto the instance before the redirect is
created — and with a title and slug no same-locale row carries) and
exactly one new revision (pre-approved, unreviewed, the redirect marker
for the saved document's title, authored and reviewed by the current
revision's creator, set as the redirect's current revision), and a second
save of the returned instance adds no further document or revision. -/
theorem redirect_creation_spec (fuel : Nat) (render : String → String)
    (w : World) (d : Document) (w' : World) (d' : Document) (i c : Nat)
    (cr : Revision)
    (hid : d.id = some i)
    (hrow : w.documents.any (fun e => e.id == some i) = true)
    (hcur : d.current_revision_id = some c)
    (hcr : getRevision w c = some cr)
    (hold : (d.old_slug.isSome || d.old_title.isSome) = true)
    (hfk : ∀ r0 ∈ w.revisions, ∃ e0 ∈ w.documents,
      e0.id = some r0.document_id)
    (h : documentSave fuel render w d = Except.ok (w', d')) :
    d'.old_title = none ∧ d'.old_slug = none ∧
    ∃ rdId rv row,
      w'.revisions = w.revisions ++ [rv] ∧
      rv.document_id = rdId ∧ rv.is_approved = true ∧
      rv.reviewed_set = false ∧
      rv.content = REDIRECT_CONTENT d.title ∧
      rv.creator = cr.creator ∧ rv.reviewer = some cr.creator ∧
      (∀ r0 ∈ w'.revisions, r0.document_id = rdId → r0 = rv) ∧
      w'.documents.length = w.documents.length + 1 ∧
      (∀ e ∈ w.documents, e.id ≠ some rdId) ∧
      getDocument w' rdId = some row ∧
      row.locale = d.locale ∧ row.is_localizable = false ∧
      row.category = d'.category ∧ row.current_revision_id = some rv.id ∧
      (∀ e ∈ w'.documents, e.id ≠ some rdId → e.locale = d.locale →
        e.title ≠ row.title ∧ e.slug ≠ row.slug) ∧
      (∀ fuel2 w2 d2, documentSave fuel2 render w' d' = Except.ok (w2, d2) →
        w2.documents.length = w'.documents.length ∧
        w2.revisions = w'.revisions) := by
  cases fuel with
  | zero => simp [documentSave] at h
  | succ f =>
  simp only [documentSave] at h
  cases hvc : validateAndClean w d with
  | error e => simp only [hvc] at h; cases h
  | ok p1 =>
  obtain ⟨w1, d1⟩ := p1
  simp only [hvc] at h
  obtain ⟨core1, hrev1, f1, hf1, hf1core⟩ := validateAndClean_ok hvc
  obtain ⟨hc_id, hc_t, hc_s, hc_l, hc_cur, hc_lat, hc_html, hc_par, hc_ot,
    hc_os⟩ := core1
  have hid1 : d1.id = some i := by rw [hc_id, hid]
  have hany1 : (w1.documents.any (fun e => e.id == some i)) = true := by
    rw [hf1]
    obtain ⟨x, hx, hpx⟩ := List.any_eq_true.mp hrow
    exact List.any_eq_true.mpr ⟨f1 x, List.mem_map_of_mem _ hx,
      by rw [(hf1core x).1]; exact hpx⟩
  simp only [persistDocument_inplace hid1 hany1] at h
  have hguard : (d1.current_revision_id.isSome &&
      (d1.old_slug.isSome || d1.old_title.isSome)) = true := by
    rw [hc_cur, hc_os, hc_ot, hcur, hold]
    rfl
  simp only [hguard, if_true] at h
  set W2 := ({w1 with documents := w1.documents.map (fun e =>
    if e.id == some i then stripOld d1 else e)} : World) with hW2
  have hrevW2 : W2.revisions = w.revisions := hrev1
  have hcr2 : getRevision W2 c = some cr := by
    simp only [getRevision]
    rw [show W2.revisions = w.revisions from hrev1]
    exact hcr
  have hcur1 : d1.current_revision_id = some c := by rw [hc_cur, hcur]
  obtain ⟨hd', rv, row, hrevs, hrvdoc2, happr2, hrevset2, hcontent2,
    hcreator2, hreviewer2, hbo2, hlen2, hfresh2, hget2, hloc2, hisloc2,
    hcat2, hcur2row, hparrow, huniq2, hprov2, hpres2, -⟩ :=
    makeRedirect_run hcur1 hcr2 h
  have hW2d : W2.documents = w1.documents.map (fun e =>
      if e.id == some i then stripOld d1 else e) := rfl
  have hstrip1id : (stripOld d1).id = some i := hid1
  have hlenW2 : W2.documents.length = w.documents.length := by
    rw [hW2d, List.length_map, hf1, List.length_map]
  have hfreshw : ∀ e ∈ w.documents, e.id ≠ some (nextDocId W2) := by
    intro e he
    have himg : (fun q => if q.id == some i then stripOld d1 else q) (f1 e) ∈
        W2.documents := by
      rw [hW2d]
      apply List.mem_map_of_mem
      rw [hf1]
      exact List.mem_map_of_mem _ he
    have hnef := hfresh2 _ himg
    rw [replace_id hstrip1id, (hf1core e).1] at hnef
    exact hnef
  have hpresW2 : W2.documents.any (fun e => e.id == some i) = true := by
    apply List.any_eq_true.mpr
    obtain ⟨x, hx, hpx⟩ := List.any_eq_true.mp hany1
    refine ⟨(if x.id == some i then stripOld d1 else x), ?_, ?_⟩
    · rw [hW2d]
      exact List.mem_map_of_mem _ hx
    · rw [replace_id hstrip1id]
      exact hpx
  have hrevs' : w'.revisions = w.revisions ++ [rv] := by
    rw [hrevs, hrevW2]
  refine ⟨by rw [hd'], by rw [hd'], nextDocId W2, rv, row, hrevs', hrvdoc2,
    happr2, hrevset2, ?_, hcreator2, hreviewer2, ?_, ?_, hfreshw, hget2,
    ?_, hisloc2, ?_, hcur2row, ?_, ?_⟩
  · rw [hcontent2, hc_t]
  · intro r0 hr0 hr0doc
    rw [hrevs'] at hr0
    rcases List.mem_append.mp hr0 with hin | hsing
    · obtain ⟨e0, he0, he0id⟩ := hfk r0 hin
      rw [hr0doc] at he0id
      exact absurd he0id (hfreshw e0 he0)
    · exact List.mem_singleton.mp hsing
  · rw [hlen2, hlenW2]
  · rw [hloc2, hc_l]
  · rw [hcat2, hd']
  · intro e he hne hel
    rcases hprov2 e he with hida | hhx
    · exact absurd hida.1 hne
    · obtain ⟨x, hxmem, hxid, hxt, hxs, hxl, -, -⟩ := hhx
      have hxlocd1 : x.locale = d1.locale := by
        rw [hxl, hel]
        exact hc_l.symm
      obtain ⟨hT, hS⟩ := huniq2 x hxmem hxlocd1
      constructor
      · rw [← hxt]
        exact hT
      · rw [← hxs]
        exact hS
  · intro fuel2 w2x d2x hs2
    have ht' : d'.old_title = none := by rw [hd']
    have hs' : d'.old_slug = none := by rw [hd']
    obtain ⟨wv9, dv9, hvc9, hpd9⟩ := documentSave_simple ht' hs' hs2
    obtain ⟨core9, hrev9, f9, hf9, hf9core⟩ := validateAndClean_ok hvc9
    have hdid' : d'.id = some i := by
      rw [hd']
      exact hid1
    have hdv9id : dv9.id = some i := by
      rw [core9.1]
      exact hdid'
    have hpresi : w'.documents.any (fun e => e.id == some i) = true :=
      hpres2 i hpresW2
    have hany9 : (wv9.documents.any (fun e => e.id == some i)) = true := by
      rw [hf9]
      obtain ⟨x, hx, hpx⟩ := List.any_eq_true.mp hpresi
      exact List.any_eq_true.mpr ⟨f9 x, List.mem_map_of_mem _ hx,
        by rw [(hf9core x).1]; exact hpx⟩
    rw [persistDocument_inplace hdv9id hany9] at hpd9
    have hw2x : w2x = {wv9 with documents := wv9.documents.map (fun e =>
        if e.id == some i then stripOld dv9 else e)} :=
      (congrArg Prod.fst hpd9).symm
    constructor
    · simp only [hw2x, List.length_map, hf9]
    · rw [hw2x]
      exact hrev9
instance {α β : Type} [DecidableEq α] [DecidableEq β] :
    DecidableEq (Except α β) := fun a b =>
  match a, b with
  | .ok x, .ok y =>
    if h : x = y then .isTrue (by rw [h])
    else .isFalse (fun hc => by cases hc; exact h rfl)
  | .error x, .error y =>
    if h : x = y then .isTrue (by rw [h])
    else .isFalse (fun hc => by cases hc; exact h rfl)
  | .ok _, .error _ => .isFalse (fun hc => Except.noConfusion hc)
  | .error _, .ok _ => .isFalse (fun hc => Except.noConfusion hc)

def c2row : Document :=
  { id := some 1, title := "Fu", slug := "foo", locale := "en-US",
    is_template := false, is_localizable := true,
    current_revision_id := some 1, latest_localizable_revision_id := none,
    parent_id := none, html := "<p>x</p>", category := 10,
    is_archived := false, contributors := [7], old_title := none,
    old_slug := none }

def c2d : Document := {c2row with title := "Foo", old_title := some "Fu"}

def c2w : World := { documents := [c2row], revisions := [c1rev1] }

def c2arow : Document := {c2row with title := "Foo"}

def c2rv : Revision :=
  { id := 2, document_id := 2, summary := "",
    content := "REDIRECT [[Foo]]", significance := none,
    reviewed_set := false, is_approved := true, based_on_id := none,
    is_ready_for_localization := false, creator := 7, reviewer := some 7 }

def c2rd : Document :=
  { id := some 2, title := "Fu", slug := "foo-redirect-1",
    locale := "en-US", is_template := false, is_localizable := false,
    current_revision_id := some 2, latest_localizable_revision_id := none,
    parent_id := none, html := "<p>REDIRECT [[Foo]]</p>", category := 10,
    is_archived := false, contributors := [7], old_title := none,
    old_slug := none }

def c2w' : World :=
  { documents := [c2arow, c2rd], revisions := [c1rev1, c2rv] }

def c2W2 : World := { documents := [c2arow], revisions := [c1rev1] }

def c2nd : Document :=
  { id := none, title := "Fu", slug := "foo-redirect-1",
    locale := "en-US", is_template := false, is_localizable := false,
    current_revision_id := none, latest_localizable_revision_id := none,
    parent_id := none, html := "", category := 10, is_archived := false,
    contributors := [], old_title := none, old_slug := none }

def c2rd0 : Document := {c2nd with id := some 2}

def c2W3 : World :=
  { documents := [c2arow, c2rd0], revisions := [c1rev1] }

def c2W4 : World :=
  { documents := [c2arow, c2rd0], revisions := [c1rev1, c2rv] }

theorem c2save :
    documentSave 10 c1render c2w c2d = Except.ok (c2w', c2arow) := by
  have e1 : validateAndClean c2w c2d = Except.ok (c2w, c2d) := by decide
  have e2 : persistDocument c2w c2d = (c2W2, c2d) := by decide
  have e3 : (c2d.current_revision_id.isSome &&
      (c2d.old_slug.isSome || c2d.old_title.isSome)) = true := by decide
  show documentSave (9+1) c1render c2w c2d = _
  simp only [documentSave, e1, e2, e3, if_true]
  have e4 : c2d.current_revision_id = some 1 := rfl
  have e5 : getRevision c2W2 1 = some c1rev1 := by decide
  have e6 : attrForRedirect c2W2 c2d Attr.title REDIRECT_TITLE =
      some "Fu" := by decide
  have e7 : attrForRedirect c2W2 c2d Attr.slug REDIRECT_SLUG =
      some "foo-redirect-1" := by decide
  show makeRedirect (8+1) c1render c2W2 c2d = _
  simp only [makeRedirect, e4, e5, e6, e7]
  have e8 : documentCreate 8 c1render c2W2 "Fu" "foo-redirect-1"
      c2d.locale c2d.category = Except.ok (c2W3, c2rd0) := by
    show documentCreate (7+1) c1render c2W2 "Fu" "foo-redirect-1"
      c2d.locale c2d.category = _
    simp only [documentCreate]
    have f1 : validateAndClean c2W2 (newDocument "Fu" "foo-redirect-1"
        c2d.locale c2d.category) = Except.ok (c2W2, c2nd) := by decide
    have f2 : persistDocument c2W2 c2nd = (c2W3, c2rd0) := by decide
    have f3 : (c2rd0.current_revision_id.isSome &&
        (c2rd0.old_slug.isSome || c2rd0.old_title.isSome)) = false := by
      decide
    show documentSave (6+1) c1render c2W2 (newDocument "Fu"
      "foo-redirect-1" c2d.locale c2d.category) = _
    simp only [documentSave, f1, f2, f3, Bool.false_eq_true, if_false]
  have e9 : revisionCreate 8 c1render c2W3 c2rd0
      (REDIRECT_CONTENT c2d.title) c1rev1.creator =
      Except.ok (c2w', c2rv) := by
    show revisionCreate (7+1) c1render c2W3 c2rd0
      (REDIRECT_CONTENT c2d.title) c1rev1.creator = _
    simp only [revisionCreate]
    have g1 : newRevision c2W3 c2rd0 (REDIRECT_CONTENT c2d.title)
        c1rev1.creator = c2rv := by decide
    rw [g1]
    have g2 : basedOnIsClean c2W3 c2rv = Except.ok (none, true) := by
      decide
    have g3 : persistRevision c2W3 c2rv = c2W4 := by decide
    have g4 : getDocument c2W4 c2rv.document_id = some c2rd0 := by decide
    have g5 : c2rv.is_approved = true := rfl
    have g6 : c2rd0.current_revision_id = none := rfl
    show revisionSave (6+1) c1render c2W3 c2rv = _
    simp only [revisionSave, g2, g3, g4, g5, if_true, g6]
    have g7 : c2rv.is_ready_for_localization = false := rfl
    have g8 : ({c2rd0 with
        contributors := updateContributors c2W4 c2rd0,
        html := c1render c2rv.content,
        current_revision_id := some c2rv.id} : Document) = c2rd := by
      decide
    show approvedUpdate (5+1) c1render c2W4 c2rv c2rd0 = _
    simp only [approvedUpdate, g7, Bool.false_eq_true, if_false, g8]
    have h1 : validateAndClean c2W4 c2rd = Except.ok (c2W4, c2rd) := by
      decide
    have h2 : persistDocument c2W4 c2rd = (c2w', c2rd) := by decide
    have h3 : (c2rd.current_revision_id.isSome &&
        (c2rd.old_slug.isSome || c2rd.old_title.isSome)) = false := by
      decide
    have h4 : documentSave 5 c1render c2W4 c2rd =
        Except.ok (c2w', c2rd) := by
      show documentSave (4+1) c1render c2W4 c2rd = _
      simp only [documentSave, h1, h2, h3, Bool.false_eq_true, if_false]
    simp only [h4]
  simp only [e8, e9]
  decide

theorem redirect_creation_spec_witness :
    c2arow.old_title = none ∧ c2arow.old_slug = none ∧
    ∃ rdId rv row,
      c2w'.revisions = c2w.revisions ++ [rv] ∧
      rv.document_id = rdId ∧ rv.is_approved = true ∧
      rv.reviewed_set = false ∧
      rv.content = REDIRECT_CONTENT c2d.title ∧
      rv.creator = c1rev1.creator ∧ rv.reviewer = some c1rev1.creator ∧
      (∀ r0 ∈ c2w'.revisions, r0.document_id = rdId → r0 = rv) ∧
      c2w'.documents.length = c2w.documents.length + 1 ∧
      (∀ e ∈ c2w.documents, e.id ≠ some rdId) ∧
      getDocument c2w' rdId = some row ∧
      row.locale = c2d.locale ∧ row.is_localizable = false ∧
      row.category = c2arow.category ∧
      row.current_revision_id = some rv.id ∧
      (∀ e ∈ c2w'.documents, e.id ≠ some rdId → e.locale = c2d.locale →
        e.title ≠ row.title ∧ e.slug ≠ row.slug) ∧
      (∀ fuel2 w2 d2, documentSave fuel2 c1render c2w' c2arow =
          Except.ok (w2, d2) →
        w2.documents.length = c2w'.documents.length ∧
        w2.revisions = c2w'.revisions) :=
  redirect_creation_spec 10 c1render c2w c2d c2w' c2arow 1 1 c1rev1
    rfl rfl rfl rfl rfl (by decide) c2save

/-- C6: after any completed `Document.save`: a translation's instance and
stored row take `category` and `is_archived` from the parent's stored row,
and a root document's save pushes its own `is_archived` and `category`
onto every stored direct translation (the redirect tail of a rename save
touches neither, since the redirect is a fresh root document no stored row
can yet point at). -/
theorem inherited_attrs_spec (fuel : Nat) (render : String → String)
    (w : World) (d : Document) (w' : World) (d' : Document)
    (h : documentSave fuel render w d = Except.ok (w', d')) :
    (∀ p par, d.parent_id = some p → getDocument w p = some par →
      d'.category = par.category ∧ d'.is_archived = par.is_archived ∧
      ∃ j, d'.id = some j ∧ getDocument w' j = some (stripOld d') ∧
        (stripOld d').category = par.category ∧
        (stripOld d').is_archived = par.is_archived) ∧
    (∀ i, d.id = some i → i ≠ 0 → d.parent_id = none →
      ∀ e ∈ w'.documents, e.parent_id = some i →
        e.is_archived = d.is_archived ∧ e.category = d.category) := by
  obtain ⟨w1, d1, w2, d2, hvc, hpd, hbr⟩ := documentSave_run h
  constructor
  · intro p par hp hpw
    obtain ⟨hw1, hcat, harch⟩ := validateAndClean_translation hp hpw hvc
    obtain ⟨core1, hrev1, f1, hf1, hf1core⟩ := validateAndClean_ok hvc
    obtain ⟨j, hj, heq, hrev2, hget2, hcor⟩ := persistDocument_run w1 d1
    simp only [hpd] at hj heq hrev2 hget2
    have hd2cat : d2.category = d1.category := by rw [heq]
    have hd2arch : d2.is_archived = d1.is_archived := by rw [heq]
    have hd2par : d2.parent_id = d1.parent_id := by rw [heq]
    have hp1 : d1.parent_id = some p := by
      rw [core1.2.2.2.2.2.2.2.1]
      exact hp
    rcases hbr with ⟨hpair, -⟩ | ⟨hg, fz, hmr⟩
    · have hww : w2 = w' := congrArg Prod.fst hpair
      have hdd : d2 = d' := congrArg Prod.snd hpair
      refine ⟨?_, ?_, j, ?_, ?_, ?_, ?_⟩
      · rw [← hdd, hd2cat, hcat]
      · rw [← hdd, hd2arch, harch]
      · rw [← hdd]
        exact hj
      · rw [← hww, ← hdd]
        exact hget2
      · rw [← hdd, stripOld_category, hd2cat, hcat]
      · rw [← hdd, stripOld_archived, hd2arch, harch]
    · have hcs : d2.current_revision_id.isSome = true := by
        rw [Bool.and_eq_true] at hg
        exact hg.1
      cases hc2 : d2.current_revision_id with
      | none => rw [hc2] at hcs; cases hcs
      | some c =>
      obtain ⟨cr, hgr⟩ := makeRedirect_getRevision hc2 hmr
      obtain ⟨hd', rv, row, hrevs, -, -, -, -, -, -, -, -, hfresh2, -, -,
        -, -, -, -, -, -, -, hgdoc2⟩ := makeRedirect_run hc2 hgr hmr
      have hpw2 : w2.documents.any (fun q => q.id == some p) = true := by
        have h0 : w.documents.any (fun q => q.id == some p) = true :=
          getDocument_any hpw
        have h1 : w1.documents.any (fun q => q.id == some p) = true := by
          rw [hw1]
          exact h0
        have h2 := persistDocument_pres_ids w1 d1 h1
        rw [hpd] at h2
        exact h2
      have hpne : p ≠ nextDocId w2 := by
        intro hcp
        obtain ⟨y, hy, hpy⟩ := List.any_eq_true.mp hpw2
        rw [beq_iff_eq] at hpy
        exact hfresh2 y hy (by rw [hpy, hcp])
      have hjne : j ≠ nextDocId w2 := by
        intro hcj
        exact hfresh2 _ (getDocument_mem hget2)
          (by rw [getDocument_id hget2, hcj])
      have hrowpar : (stripOld d2).parent_id ≠ some (nextDocId w2) := by
        rw [stripOld_parent, hd2par, hp1]
        intro hcc
        exact hpne (by injection hcc)
      have hgetw' : getDocument w' j = some (stripOld d2) :=
        hgdoc2 j (stripOld d2) hget2 hjne hrowpar
      refine ⟨?_, ?_, j, ?_, ?_, ?_, ?_⟩
      · rw [hd']
        show d2.category = par.category
        rw [hd2cat, hcat]
      · rw [hd']
        show d2.is_archived = par.is_archived
        rw [hd2arch, harch]
      · rw [hd']
        show d2.id = some j
        exact hj
      · rw [hd']
        exact hgetw'
      · rw [hd']
        show d2.category = par.category
        rw [hd2cat, hcat]
      · rw [hd']
        show d2.is_archived = par.is_archived
        rw [hd2arch, harch]
  · intro i hdi hi0 hpar e he hep
    obtain ⟨hcat1, harch1, hp1, hid1, -, hrows1⟩ :=
      validateAndClean_root_run hdi hi0 hpar hvc
    have hsp : (stripOld d1).parent_id = none := by
      rw [stripOld_parent, hp1]
    have hw2rows : ∀ x ∈ w2.documents, x.parent_id = some i →
        x.is_archived = d.is_archived ∧ x.category = d.category := by
      intro x hx hxp
      by_cases hany : (w1.documents.any (fun q => q.id == some i)) = true
      · rw [persistDocument_inplace hid1 hany] at hpd
        have hw2 : w2 = {w1 with documents := w1.documents.map (fun q =>
            if q.id == some i then stripOld d1 else q)} :=
          (congrArg Prod.fst hpd).symm
        rw [hw2] at hx
        obtain ⟨y, hy, rfl⟩ := List.mem_map.mp hx
        by_cases hyi : (y.id == some i) = true
        · rw [if_pos hyi] at hxp
          rw [hsp] at hxp
          cases hxp
        · rw [if_neg hyi] at hxp ⊢
          exact hrows1 y hy hxp
      · rw [Bool.not_eq_true] at hany
        have hpde : persistDocument w1 d1 =
            ({w1 with documents := w1.documents ++ [stripOld d1]}, d1) := by
          simp only [persistDocument, hid1, hany, Bool.false_eq_true,
            if_false]
        rw [hpde] at hpd
        have hw2 : w2 = {w1 with documents :=
            w1.documents ++ [stripOld d1]} := (congrArg Prod.fst hpd).symm
        rw [hw2] at hx
        rcases List.mem_append.mp hx with h1 | h2
        · exact hrows1 _ h1 hxp
        · rw [List.mem_singleton] at h2
          subst h2
          rw [hsp] at hxp
          cases hxp
    have hw2any : w2.documents.any (fun q => q.id == some i) = true := by
      obtain ⟨j', hj', heq', -, hget', hcor'⟩ := persistDocument_run w1 d1
      simp only [hpd] at hj' heq' hget' hcor'
      rcases hcor' with hsomej | hnone
      · rw [hid1] at hsomej
        injection hsomej with hij
        rw [← hij] at hget'
        exact getDocument_any hget'
      · rw [hid1] at hnone
        cases hnone
    rcases hbr with ⟨hpair, -⟩ | ⟨hg, fz, hmr⟩
    · have hww : w2 = w' := congrArg Prod.fst hpair
      rw [← hww] at he
      exact hw2rows e he hep
    · have hcs : d2.current_revision_id.isSome = true := by
        rw [Bool.and_eq_true] at hg
        exact hg.1
      cases hc2 : d2.current_revision_id with
      | none => rw [hc2] at hcs; cases hcs
      | some c =>
      obtain ⟨cr, hgr⟩ := makeRedirect_getRevision hc2 hmr
      obtain ⟨-, rv, row, -, -, -, -, -, -, -, -, -, hfresh2, -, -, -, -,
        -, -, -, hprov2, -, -⟩ := makeRedirect_run hc2 hgr hmr
      have hine : some i ≠ some (nextDocId w2) := by
        obtain ⟨y, hy, hpy⟩ := List.any_eq_true.mp hw2any
        rw [beq_iff_eq] at hpy
        intro hcc
        exact hfresh2 y hy (by rw [hpy]; exact hcc)
      rcases hprov2 e he with ⟨-, hepar⟩ | hx
      · rw [hepar] at hep
        cases hep
      · obtain ⟨x, hxmem, -, -, -, -, hxpar, hcond⟩ := hx
        have hxp : x.parent_id = some i := by
          rw [hxpar]
          exact hep
        have hxne : x.parent_id ≠ some (nextDocId w2) := by
          rw [hxp]
          exact hine
        obtain ⟨hcx, hax⟩ := hcond hxne
        obtain ⟨harr, hcatr⟩ := hw2rows x hxmem hxp
        constructor
        · rw [← hax]
          exact harr
        · rw [← hcx]
          exact hcatr

theorem inherited_attrs_spec_witness :
    c6tr'.is_archived = c6root.is_archived ∧
    c6tr'.category = c6root.category :=
  (inherited_attrs_spec 1 c1render c6w c6root c6w' c6root rfl).2
    1 rfl (by decide) rfl c6tr' (by decide) rfl
